import Mathlib

/-!
# Sistema IoT de Monitoreo Polimórfico: a verification development

A shallow embedding of `ListaSensor.h`, `SensorBase.h`, `SensorTemperatura.h`,
`SensorPresion.h`, `ListaGestion.h` and the sensor handling of `main.cpp`.

* A singly linked list (`NodoLS<T>` chain starting at `cabeza`) is a `List T`,
  head first. A node pointer is the index of its node; `nullptr` is `none`.
* The template parameter `T` comes with the four operations the template uses
  (`static_cast<T>(0)`, `+=`, `/ int`, `<`), collected in `Arit T`.
  `int` is a 32-bit two's complement integer, embedded in `Int` with explicit
  wrapping; `float` is kept abstract (a type parameter `F` with its `Arit F`), with
  two instances for examples: exact rationals, and `Flot`, exact rationals plus NaN.
* A C string is the list of its characters before the terminating NUL.
* What is written to `std::cout` is a list of output lines (`Linea`).
-/

namespace IoT

/-! ## Element arithmetic -/

/-- The operations `ListaSensor<T>` uses on its element type `T`. -/
structure Arit (T : Type) where
  /-- The value `static_cast<T>(0)`. -/
  cero : T
  /-- The sum `suma + dato` in `T` (used by `suma += tmp->dato`). -/
  mas : T → T → T
  /-- The quotient `suma / c` of a `T` by the `int` counter `c`. -/
  entre : T → Int → T
  /-- The comparison `a < b` in `T`. -/
  menor : T → T → Bool

/-- Reduction of an integer to the 32-bit two's complement range. -/
def wrap32 (z : Int) : Int := (z + 2 ^ 31) % 2 ^ 32 - 2 ^ 31

/-- The C++ type `int` (32 bits): wrapping sum, quotient truncated toward zero. -/
def aritInt : Arit Int where
  cero := 0
  mas a b := wrap32 (a + b)
  entre a c := wrap32 (Int.tdiv a c)
  menor a b := decide (a < b)

/-- Exact rational arithmetic, standing for `float` where no rounding occurs. -/
def aritExacta : Arit Rat where
  cero := 0
  mas a b := a + b
  entre a c := a / (c : Rat)
  menor a b := decide (a < b)

/-! ## ListaSensor<T> -/

/-- The history list `ListaSensor<T>`: the `dato` fields from `cabeza` on. -/
abbrev ListaSensor (T : Type) := List T

namespace ListaSensor

variable {T : Type}

/-- Source: `ListaSensor<T>::insertarFinal`. Walks to the last node and links the new one. -/
def insertarFinal : ListaSensor T → T → ListaSensor T
  | [], valor => [valor]
  | d :: resto, valor => d :: insertarFinal resto valor

/-- Source: `ListaSensor<T>::estaVacia`. -/
def estaVacia (h : ListaSensor T) : Bool :=
  match h with
  | [] => true
  | _ :: _ => false

/-- The `while (tmp)` loop of `promedio`: `tmp` runs over the remaining nodes,
`suma` and `c` are the accumulators. The counter `c` is an `int`; it is not wrapped
here (a list of 2^31 nodes is beyond what the program can hold). -/
def promedioBucle (A : Arit T) : List T → T → Int → T × Int
  | [], suma, c => (suma, c)
  | d :: resto, suma, c => promedioBucle A resto (A.mas suma d) (c + 1)

/-- Source: `ListaSensor<T>::promedio`. Returns the value and the list afterwards
(the member function is not `const`). -/
def promedio (A : Arit T) (h : ListaSensor T) : T × ListaSensor T :=
  match h with
  | [] => (A.cero, h)
  | _ :: _ =>
    let r := promedioBucle A h A.cero 0
    if r.2 = 0 then (A.cero, h) else (A.entre r.1 r.2, h)

/-- State of the scan of `eliminarMenor`: `menor` and `antMenor` and `ant` as node
indices (`none` is `nullptr`), with `dato` the value `menor->dato`. -/
structure Barrido (T : Type) where
  menor : Nat
  dato : T
  antMenor : Option Nat
  ant : Option Nat

/-- The `while (cur)` loop of `eliminarMenor`: the remaining nodes from `cur` on and
the index `i` of `cur`. -/
def eliminarMenorBucle (A : Arit T) : List T → Nat → Barrido T → Barrido T
  | [], _, e => e
  | d :: resto, i, e =>
    if A.menor d e.dato then
      eliminarMenorBucle A resto (i + 1) ⟨i, d, e.ant, some i⟩
    else
      eliminarMenorBucle A resto (i + 1) ⟨e.menor, e.dato, e.antMenor, some i⟩

/-- Source: `ListaSensor<T>::eliminarMenor`. With `antMenor == nullptr` the head is
dropped; otherwise node `antMenor` is linked to `menor->sig`. -/
def eliminarMenor (A : Arit T) (h : ListaSensor T) : ListaSensor T :=
  match h with
  | [] => h
  | [_] => h
  | x :: y :: resto =>
    let e := eliminarMenorBucle A (x :: y :: resto) 0 ⟨0, x, none, none⟩
    match e.antMenor with
    | none => y :: resto
    | some a => h.take (a + 1) ++ h.drop (e.menor + 1)

/-- Source: `ListaSensor<T>::limpiar`. -/
def limpiar (_h : ListaSensor T) : ListaSensor T := []

end ListaSensor

/-- An arithmetic whose comparison is the strict order of `T`. -/
def Arit.Ordenada {T : Type} [LinearOrder T] (A : Arit T) : Prop :=
  ∀ a b : T, A.menor a b = true ↔ a < b

/-! ## C strings and the C library conversions -/

/-- A C string: its characters up to the terminating NUL, one `Char` per `char`. -/
abbrev CStr := List Char

/-- C library `isspace` in the "C" locale. -/
def isspace (c : Char) : Bool :=
  c == ' ' || c == '\t' || c == '\n' || c == '\x0b' || c == '\x0c' || c == '\r'

/-- C library `isdigit`. -/
def isdigit (c : Char) : Bool := decide ('0' ≤ c) && decide (c ≤ '9')

/-- The leading white space that `atoi` and `atof` skip. -/
def saltarEspacios : CStr → CStr
  | [] => []
  | c :: r => if isspace c then saltarEspacios r else c :: r

/-- The optional sign that `atoi` and `atof` accept after the white space. -/
def saltarSigno : CStr → CStr
  | '+' :: r => r
  | '-' :: r => r
  | t => t

/-- The digit loop of `strtol` in base 10: `acc` is the value read so far. -/
def leerDigitos : CStr → Int → Int
  | [], acc => acc
  | c :: r, acc =>
    if isdigit c then leerDigitos r (acc * 10 + ((c.toNat : Int) - 48)) else acc

/-- The saturation of `strtol` to the range of a 64-bit `long`. -/
def clamp64 (z : Int) : Int := max (-(2 ^ 63)) (min z (2 ^ 63 - 1))

/-- C library `atoi`, as `(int) strtol(s, NULL, 10)` with a 64-bit `long`: white space,
an optional sign, then decimal digits; `0` when no digit is there. -/
def atoi (s : CStr) : Int :=
  match saltarEspacios s with
  | '-' :: r => wrap32 (clamp64 (-(leerDigitos r 0)))
  | '+' :: r => wrap32 (clamp64 (leerDigitos r 0))
  | r => wrap32 (clamp64 (leerDigitos r 0))

/-- Whether `t` starts with the letters of `p`, upper or lower case. -/
def empiezaSinCaja : CStr → CStr → Bool
  | [], _ => true
  | _ :: _, [] => false
  | p :: ps, c :: cs => (c.toLower == p) && empiezaSinCaja ps cs

/-- Whether a text, past white space and sign, begins a floating constant as `strtod`
reads it: a digit, a point followed by a digit, `inf` or `nan`. -/
def empiezaNumero (t : CStr) : Bool :=
  match t with
  | [] => false
  | c :: r =>
    isdigit c
      || (c == '.' && (match r with
                        | [] => false
                        | d :: _ => isdigit d))
      || empiezaSinCaja ['i', 'n', 'f'] t
      || empiezaSinCaja ['n', 'a', 'n'] t

/-- The type `float` as far as the sensors use it: its arithmetic, and the rounding
conversion `static_cast<float>(strtod(t, NULL))` of a text `t` that holds a number. -/
structure Flotante (F : Type) where
  arit : Arit F
  convertir : CStr → F

/-- C library `atof` followed by the cast to `float`: zero when the text holds no
number, otherwise the conversion of its longest numeric prefix. -/
def atof {F : Type} (fl : Flotante F) (s : CStr) : F :=
  let t := saltarEspacios s
  if empiezaNumero (saltarSigno t) then fl.convertir t else fl.arit.cero

/-- The fraction digits of a plain decimal constant: `acc` is the value so far and
`peso` the weight of the next digit. -/
def leerFraccion : CStr → Rat → Rat → Rat
  | [], acc, _ => acc
  | c :: r, acc, peso =>
    if isdigit c then leerFraccion r (acc + (((c.toNat : Int) - 48 : Int) : Rat) * peso) (peso / 10)
    else acc

/-- The rest of a plain decimal constant after its integer digits. -/
def leerTrasEntero : CStr → Rat → Rat
  | [], acc => acc
  | c :: r, acc =>
    if isdigit c then leerTrasEntero r (acc * 10 + (((c.toNat : Int) - 48 : Int) : Rat))
    else if c == '.' then leerFraccion r acc (1 / 10)
    else acc

/-- The exact value of a plain decimal constant (sign, digits, point, digits). It is a
stand-in for examples and not the library conversion: it agrees with
`static_cast<float>(atof(t))` only on plain decimal constants that a `float` holds
exactly (such as `30.0` or `3.5`); an exponent, hexadecimal digits, `inf` and `nan` are
not read, and nothing is rounded. -/
def convertirExacta (t : CStr) : Rat :=
  match t with
  | '-' :: r => -(leerTrasEntero r 0)
  | '+' :: r => leerTrasEntero r 0
  | r => leerTrasEntero r 0

/-- Exact rational arithmetic with exact reading of plain decimal constants. -/
def flExacta : Flotante Rat := ⟨aritExacta, convertirExacta⟩

/-! ## Output -/

/-- One line written to `std::cout`: plain text, or text followed by a number sent
through `operator<<` (the number is kept as a value, its digits are not produced). -/
inductive Linea (F : Type) where
  | texto (s : CStr)
  | conFloat (s : CStr) (v : F)
  | conInt (s : CStr) (v : Int)
  deriving DecidableEq

/-! ## Sensors -/

/-- Source: the constructor `SensorBase::SensorBase`. The bytes `strncpy` leaves
in `nombre[50]` once `nombre[49]` is set to NUL. -/
def copiarNombre (nom : CStr) : CStr := nom.take 49

/-- Source: `class SensorTemperatura` (the `nombre` of its base and its `historial`). -/
structure SensorTemperatura (F : Type) where
  nombre : CStr
  historial : ListaSensor F
  deriving DecidableEq

/-- Source: `class SensorPresion`. -/
structure SensorPresion where
  nombre : CStr
  historial : ListaSensor Int
  deriving DecidableEq

namespace SensorTemperatura

variable {F : Type}

/-- Source: the constructor `SensorTemperatura(const char* nom)`. -/
def nuevo (nom : CStr) : SensorTemperatura F := ⟨copiarNombre nom, []⟩

/-- Source: `SensorTemperatura::agregarLecturaDesdeTexto`. -/
def agregarLecturaDesdeTexto (fl : Flotante F) (s : SensorTemperatura F) (valorTxt : CStr) :
    SensorTemperatura F × List (Linea F) :=
  let v := atof fl valorTxt
  (⟨s.nombre, ListaSensor.insertarFinal s.historial v⟩,
    [Linea.conFloat ("[Log] Insertando Nodo<float> en ".toList ++ s.nombre ++ ": ".toList) v])

/-- Source: `SensorTemperatura::procesarLectura`. -/
def procesarLectura (A : Arit F) (s : SensorTemperatura F) :
    SensorTemperatura F × List (Linea F) :=
  let cab := Linea.texto ("-> Procesando Sensor ".toList ++ s.nombre ++ " (Temperatura)".toList)
  if ListaSensor.estaVacia s.historial then
    (s, [cab, Linea.texto "   No hay lecturas.".toList])
  else
    let h1 := ListaSensor.eliminarMenor A s.historial
    let p := ListaSensor.promedio A h1
    (⟨s.nombre, p.2⟩,
      [cab, Linea.conFloat "   Promedio después de eliminar menor: ".toList p.1])

/-- Source: `SensorTemperatura::imprimirInfo`. -/
def imprimirInfo (s : SensorTemperatura F) : List (Linea F) :=
  [Linea.texto ("[SensorTemperatura] ID=".toList ++ s.nombre)]

end SensorTemperatura

namespace SensorPresion

variable {F : Type}

/-- Source: the constructor `SensorPresion(const char* nom)`. -/
def nuevo (nom : CStr) : SensorPresion := ⟨copiarNombre nom, []⟩

/-- Source: `SensorPresion::agregarLecturaDesdeTexto`. -/
def agregarLecturaDesdeTexto (s : SensorPresion) (valorTxt : CStr) :
    SensorPresion × List (Linea F) :=
  let v := atoi valorTxt
  (⟨s.nombre, ListaSensor.insertarFinal s.historial v⟩,
    [Linea.conInt ("[Log] Insertando Nodo<int> en ".toList ++ s.nombre ++ ": ".toList) v])

/-- Source: `SensorPresion::procesarLectura`. -/
def procesarLectura (s : SensorPresion) : SensorPresion × List (Linea F) :=
  let cab := Linea.texto ("-> Procesando Sensor ".toList ++ s.nombre ++ " (Presion)".toList)
  if ListaSensor.estaVacia s.historial then
    (s, [cab, Linea.texto "   No hay lecturas.".toList])
  else
    let p := ListaSensor.promedio aritInt s.historial
    (⟨s.nombre, p.2⟩, [cab, Linea.conInt "   Promedio de lecturas: ".toList p.1])

/-- Source: `SensorPresion::imprimirInfo`. -/
def imprimirInfo (s : SensorPresion) : List (Linea F) :=
  [Linea.texto ("[SensorPresion] ID=".toList ++ s.nombre)]

end SensorPresion

/-- The object a `SensorBase*` points to: one of the two derived classes. -/
inductive SensorBase (F : Type) where
  | temperatura (s : SensorTemperatura F)
  | presion (s : SensorPresion)
  deriving DecidableEq

namespace SensorBase

variable {F : Type}

/-- Source: `SensorBase::getNombre`. -/
def getNombre : SensorBase F → CStr
  | temperatura s => s.nombre
  | presion s => s.nombre

/-- Virtual call `s->agregarLecturaDesdeTexto(valorTxt)`. -/
def agregarLecturaDesdeTexto (fl : Flotante F) (s : SensorBase F) (valorTxt : CStr) :
    SensorBase F × List (Linea F) :=
  match s with
  | temperatura t =>
    let r := SensorTemperatura.agregarLecturaDesdeTexto fl t valorTxt
    (temperatura r.1, r.2)
  | presion p =>
    let r := SensorPresion.agregarLecturaDesdeTexto p valorTxt
    (presion r.1, r.2)

/-- Virtual call `s->procesarLectura()`. -/
def procesarLectura (A : Arit F) (s : SensorBase F) : SensorBase F × List (Linea F) :=
  match s with
  | temperatura t =>
    let r := SensorTemperatura.procesarLectura A t
    (temperatura r.1, r.2)
  | presion p =>
    let r := SensorPresion.procesarLectura p
    (presion r.1, r.2)

/-- Virtual call `s->imprimirInfo()`. -/
def imprimirInfo (s : SensorBase F) : List (Linea F) :=
  match s with
  | temperatura t => SensorTemperatura.imprimirInfo t
  | presion p => SensorPresion.imprimirInfo p

end SensorBase

/-! ## ListaGestion -/

/-- The registry `ListaGestion`: the sensors its nodes point to, from `cabeza` on.
A sensor pointer is the index of the node holding it. -/
abbrev ListaGestion (F : Type) := List (SensorBase F)

namespace ListaGestion

variable {F : Type}

/-- Source: `ListaGestion::insertar`. -/
def insertar : ListaGestion F → SensorBase F → ListaGestion F
  | [], s => [s]
  | d :: resto, s => d :: insertar resto s

/-- The `while (tmp)` loop of `buscarPorNombre`, with `i` the index of `tmp`;
`strcmp(...) == 0` is equality of the two strings. -/
def buscarDesde : List (SensorBase F) → Nat → CStr → Option Nat
  | [], _, _ => none
  | s :: resto, i, nom => if s.getNombre = nom then some i else buscarDesde resto (i + 1) nom

/-- Source: `ListaGestion::buscarPorNombre`. The result is the index of the sensor
returned, `none` for `nullptr`. -/
def buscarPorNombre (lista : ListaGestion F) (nom : CStr) : Option Nat :=
  buscarDesde lista 0 nom

/-- The `while (tmp)` loop of `procesarTodos`. -/
def procesarBucle (A : Arit F) : List (SensorBase F) → List (SensorBase F) × List (Linea F)
  | [] => ([], [])
  | s :: resto =>
    let r := SensorBase.procesarLectura A s
    let rs := procesarBucle A resto
    (r.1 :: rs.1, r.2 ++ rs.2)

/-- Source: `ListaGestion::procesarTodos`. -/
def procesarTodos (A : Arit F) (lista : ListaGestion F) : ListaGestion F × List (Linea F) :=
  let r := procesarBucle A lista
  (r.1, Linea.texto "--- Ejecutando Polimorfismo ---".toList :: r.2)

/-- The `while (tmp)` loop of `imprimir`. -/
def imprimirBucle : List (SensorBase F) → List (Linea F)
  | [] => []
  | s :: resto => SensorBase.imprimirInfo s ++ imprimirBucle resto

/-- Source: `ListaGestion::imprimir`. -/
def imprimir (lista : ListaGestion F) : List (Linea F) :=
  Linea.texto "[Lista de Gestion]".toList ::
    (match lista with
     | [] => [Linea.texto "Lista de gestion vacia.".toList]
     | _ :: _ => imprimirBucle lista)

end ListaGestion

/-! ## main.cpp -/

/-- Source: `crearSensorPorTipo`. Returns the pointer to the new sensor (the index of
its node, `none` for `nullptr`), the registry afterwards and the lines written. -/
def crearSensorPorTipo {F : Type} (tipo : Char) (id : CStr) (lista : ListaGestion F) :
    Option Nat × ListaGestion F × List (Linea F) :=
  if tipo = 'T' then
    let lista1 := ListaGestion.insertar lista (SensorBase.temperatura (SensorTemperatura.nuevo id))
    (some lista.length, lista1,
      [Linea.texto ("[Log] Sensor de Temperatura ".toList ++ ['\''] ++ id ++ ['\''] ++ " creado.".toList)])
  else if tipo = 'P' then
    let lista1 := ListaGestion.insertar lista (SensorBase.presion (SensorPresion.nuevo id))
    (some lista.length, lista1,
      [Linea.texto ("[Log] Sensor de Presion ".toList ++ ['\''] ++ id ++ ['\''] ++ " creado.".toList)])
  else
    (none, lista, [Linea.texto "[Error] Tipo de sensor no valido.".toList])

/-- The registries the program can build: the empty one, and what `insertar` and
`crearSensorPorTipo` make of a registry already built. -/
inductive Alcanzable {F : Type} : ListaGestion F → Prop where
  | vacia : Alcanzable []
  | insertar (lista : ListaGestion F) (s : SensorBase F) :
      Alcanzable lista → Alcanzable (ListaGestion.insertar lista s)
  | crear (lista : ListaGestion F) (tipo : Char) (id : CStr) :
      Alcanzable lista → Alcanzable (crearSensorPorTipo tipo id lista).2.1

/-- C library `strtok` with the delimiter set `";"`, on the text from the saved position:
skips leading delimiters, returns `none` (`NULL`) at the end of the text, otherwise the
token up to the next delimiter and the text after that delimiter (the saved position). -/
def strtok (s : CStr) : Option (CStr × CStr) :=
  match s.dropWhile (fun c => c == ';') with
  | [] => none
  | c :: r =>
    some ((c :: r).takeWhile (fun d => d != ';'),
      ((c :: r).dropWhile (fun d => d != ';')).drop 1)

/-- Source: `parsearLinea`. Returns `*tipo`, `id` and `valor` as they are on return;
`strncpy(id, token, 49); id[49] = 0` keeps the first 49 characters of the token. -/
def parsearLinea (linea : CStr) : Char × CStr × CStr :=
  match strtok linea with
  | none => ('X', [], [])
  | some (tok1, r1) =>
    let tipo := tok1.headD (Char.ofNat 0)
    match strtok r1 with
    | none => (tipo, [], [])
    | some (tok2, r2) =>
      let id := tok2.take 49
      match strtok r2 with
      | none => (tipo, id, [])
      | some (tok3, _) => (tipo, id, tok3.take 49)

/-- The call `s->agregarLecturaDesdeTexto(valor)` through the sensor pointer `i`: the
sensor of node `i` is replaced by what the call makes of it. -/
def ingerirEn {F : Type} (fl : Flotante F) (lista : ListaGestion F) (i : Nat) (valor : CStr) :
    ListaGestion F × List (Linea F) :=
  match lista[i]? with
  | none => (lista, [])
  | some s =>
    let r := SensorBase.agregarLecturaDesdeTexto fl s valor
    (lista.set i r.1, r.2)

/-- Source: `main`, options 5 and 6, what follows `parsearLinea`: look the id up, create
the sensor when it is not found, ingest the value when there is a sensor. -/
def manejarTrama {F : Type} (fl : Flotante F) (lista : ListaGestion F) (tipo : Char)
    (id valor : CStr) : ListaGestion F × List (Linea F) :=
  match ListaGestion.buscarPorNombre lista id with
  | some i => ingerirEn fl lista i valor
  | none =>
    let aviso := Linea.texto ("Sensor ".toList ++ id ++ " no existe, creando...".toList)
    let c := crearSensorPorTipo tipo id lista
    match c.1 with
    | some i =>
      let r := ingerirEn fl c.2.1 i valor
      (r.1, aviso :: c.2.2 ++ r.2)
    | none => (c.2.1, aviso :: c.2.2)

/-- Source: `main`, options 5 and 6, once `leerLinea` has returned a line: an empty line
is skipped, any other line is echoed, decoded and handled. -/
def recibirTrama {F : Type} (fl : Flotante F) (lista : ListaGestion F) (linea : CStr) :
    ListaGestion F × List (Linea F) :=
  match linea with
  | [] => (lista, [])
  | _ :: _ =>
    let p := parsearLinea linea
    let r := manejarTrama fl lista p.1 p.2.1 p.2.2
    (r.1, Linea.texto ("[RX] Trama recibida: ".toList ++ linea) :: r.2)

/-! ## Specification-side definitions -/

/-- The least value of a non-empty sequence `x :: resto`. -/
def minimoDe {T : Type} [LinearOrder T] (x : T) (resto : List T) : T :=
  resto.foldl min x

/-- The sequence without the first occurrence of its minimum value. -/
def quitarPrimerMinimo {T : Type} [LinearOrder T] (h : List T) : List T :=
  match h with
  | [] => []
  | x :: resto => h.erase (minimoDe x resto)

/-- The mean as the specification words it: zero when empty, else the sum (taken in
list order, in `T`) divided by the number of elements. -/
def media {T : Type} (A : Arit T) (h : List T) : T :=
  match h with
  | [] => A.cero
  | _ :: _ => A.entre (h.foldl A.mas A.cero) (h.length : Int)

/-- The identity line of a sensor as the specification words it: the kind tag in
brackets, then `ID=` and the name. -/
def lineaIdentidad {F : Type} (s : SensorBase F) : Linea F :=
  match s with
  | SensorBase.temperatura t => Linea.texto ("[SensorTemperatura] ID=".toList ++ t.nombre)
  | SensorBase.presion p => Linea.texto ("[SensorPresion] ID=".toList ++ p.nombre)

/-- A `float` as far as comparing and averaging readings goes: NaN or a number. The
numbers are taken exact (no rounding) and the infinities are left out. -/
inductive Flot where
  | nan
  | num (q : Rat)
  deriving DecidableEq

/-- The number a `Flot` holds, zero for NaN. -/
def Flot.valor : Flot → Rat
  | Flot.nan => 0
  | Flot.num q => q

/-- The arithmetic of `float` with NaN: a sum or quotient with NaN is NaN, and every
comparison with NaN is false. -/
def aritNaN : Arit Flot where
  cero := Flot.num 0
  mas a b :=
    match a, b with
    | Flot.num p, Flot.num q => Flot.num (p + q)
    | _, _ => Flot.nan
  entre a c :=
    match a with
    | Flot.num p => Flot.num (p / (c : Rat))
    | Flot.nan => Flot.nan
  menor a b :=
    match a, b with
    | Flot.num p, Flot.num q => decide (p < q)
    | _, _ => false

/-- Position `i` of `h` is the earliest one holding the minimum value of `h`: its value
`m` is below every value of `h` other than itself, and no earlier position holds `m`. -/
def EsPrimerMinimo {T : Type} (A : Arit T) (h : List T) (i : Nat) : Prop :=
  ∃ m, h[i]? = some m ∧ (∀ x ∈ h, x = m ∨ A.menor m x = true) ∧
    (∀ j, j < i → ∀ x, h[j]? = some x → x ≠ m)

/-! ## Lemmas on the scan of eliminarMenor -/

section Barrido

variable {T : Type} [LinearOrder T]

open ListaSensor

/-- What the scan leaves: either nothing below `menor->dato` was met, or `menor` sits
on the earliest node holding the least value, with `antMenor` right before it. -/
theorem eliminarMenorBucle_spec (A : Arit T) (hA : A.Ordenada) :
    ∀ (resto : List T) (i : Nat) (e : Barrido T),
      (fun r : Barrido T =>
        (r.menor = e.menor ∧ r.dato = e.dato ∧ r.antMenor = e.antMenor ∧
            ∀ x ∈ resto, e.dato ≤ x) ∨
        (∃ j, resto[j]? = some r.dato ∧ r.menor = i + j ∧ r.dato < e.dato ∧
            (∀ x ∈ resto, r.dato ≤ x) ∧
            (∀ k, k < j → ∀ x, resto[k]? = some x → r.dato < x) ∧
            r.antMenor = (if j = 0 then e.ant else some (i + j - 1))))
        (eliminarMenorBucle A resto i e) := by
  intro resto
  induction resto with
  | nil => intro i e; left; simp [eliminarMenorBucle]
  | cons d resto ih =>
    intro i e
    simp only [eliminarMenorBucle]
    by_cases hd : A.menor d e.dato = true
    · have hlt : d < e.dato := (hA d e.dato).1 hd
      rw [if_pos hd]
      rcases ih (i + 1) ⟨i, d, e.ant, some i⟩ with h | ⟨j, hj, hm, hlt2, hall, hfirst, hant⟩
      · obtain ⟨h1, h2, h3, h4⟩ := h
        right
        refine ⟨0, ?_, ?_, ?_, ?_, ?_, ?_⟩
        · simp [h2]
        · simp [h1]
        · rw [h2]; exact hlt
        · intro x hx
          rw [h2]
          rcases List.mem_cons.1 hx with rfl | hx
          · exact le_refl _
          · exact h4 x hx
        · intro k hk; omega
        · simp [h3]
      · right
        simp only at hlt2 hant hm
        refine ⟨j + 1, ?_, ?_, ?_, ?_, ?_, ?_⟩
        · simpa using hj
        · omega
        · exact lt_trans hlt2 hlt
        · intro x hx
          rcases List.mem_cons.1 hx with rfl | hx
          · exact le_of_lt hlt2
          · exact hall x hx
        · intro k hk x hx
          cases k with
          | zero => simp at hx; rw [← hx]; exact hlt2
          | succ k => exact hfirst k (by omega) x (by simpa using hx)
        · rw [hant]
          by_cases hj0 : j = 0
          · simp [hj0]
          · simp [hj0]
    · have hge : e.dato ≤ d := by
        rcases lt_or_ge d e.dato with h | h
        · exact absurd ((hA d e.dato).2 h) hd
        · exact h
      rw [if_neg hd]
      rcases ih (i + 1) ⟨e.menor, e.dato, e.antMenor, some i⟩ with
        h | ⟨j, hj, hm, hlt2, hall, hfirst, hant⟩
      · obtain ⟨h1, h2, h3, h4⟩ := h
        left
        refine ⟨h1, h2, h3, ?_⟩
        intro x hx
        rcases List.mem_cons.1 hx with rfl | hx
        · exact hge
        · exact h4 x hx
      · right
        simp only at hlt2 hant hm
        refine ⟨j + 1, ?_, ?_, hlt2, ?_, ?_, ?_⟩
        · simpa using hj
        · omega
        · intro x hx
          rcases List.mem_cons.1 hx with rfl | hx
          · exact le_of_lt (lt_of_lt_of_le hlt2 hge)
          · exact hall x hx
        · intro k hk x hx
          cases k with
          | zero => simp at hx; rw [← hx]; exact lt_of_lt_of_le hlt2 hge
          | succ k => exact hfirst k (by omega) x (by simpa using hx)
        · rw [hant]
          by_cases hj0 : j = 0
          · simp [hj0]
          · simp [hj0]

/-- The index and value that `eliminarMenor` removes from a list of two or more. -/
theorem eliminarMenor_indice (A : Arit T) (hA : A.Ordenada) (h : List T)
    (h2 : 2 ≤ h.length) :
    ∃ i m, h[i]? = some m ∧ (∀ x ∈ h, m ≤ x) ∧
      (∀ j, j < i → ∀ x, h[j]? = some x → m < x) ∧
      eliminarMenor A h = h.eraseIdx i := by
  match h, h2 with
  | x :: y :: resto, _ =>
    simp only [eliminarMenor]
    rcases eliminarMenorBucle_spec A hA (x :: y :: resto) 0 ⟨0, x, none, none⟩ with
      h | ⟨j, hj, hm, hlt2, hall, hfirst, hant⟩
    · obtain ⟨h1, h2, h3, h4⟩ := h
      simp only at h3 h4
      refine ⟨0, x, by simp, h4, ?_, ?_⟩
      · intro j hj; omega
      · rw [h3]; simp
    · simp only at hlt2 hant hm
      have hj0 : j ≠ 0 := by
        intro h0
        rw [h0] at hj
        simp at hj
        rw [← hj] at hlt2
        exact lt_irrefl _ hlt2
      refine ⟨j, _, hj, hall, hfirst, ?_⟩
      rw [hant, if_neg hj0]
      simp only
      rw [hm, List.eraseIdx_eq_take_drop_succ]
      have : 0 + j - 1 + 1 = j := by omega
      rw [this]
      simp

end Barrido

section Minimo

variable {T : Type} [LinearOrder T]

open ListaSensor

theorem minimoDe_le_inicio (x : T) (resto : List T) : minimoDe x resto ≤ x := by
  unfold minimoDe
  induction resto generalizing x with
  | nil => simp
  | cons d resto ih => exact le_trans (ih (min x d)) (min_le_left x d)

theorem minimoDe_le_mem (x : T) (resto : List T) :
    ∀ y ∈ resto, minimoDe x resto ≤ y := by
  unfold minimoDe
  induction resto generalizing x with
  | nil => simp
  | cons d resto ih =>
    intro y hy
    rcases List.mem_cons.1 hy with rfl | hy
    · exact le_trans (minimoDe_le_inicio (min x y) resto) (min_le_right x y)
    · exact ih (min x d) y hy

theorem minimoDe_mem (x : T) (resto : List T) : minimoDe x resto ∈ x :: resto := by
  unfold minimoDe
  induction resto generalizing x with
  | nil => simp
  | cons d resto ih =>
    have h := ih (min x d)
    simp only [List.foldl_cons]
    rcases List.mem_cons.1 h with h | h
    · rw [h]
      rcases min_choice x d with hc | hc
      · rw [hc]; simp
      · rw [hc]; simp
    · exact List.mem_cons_of_mem _ (List.mem_cons_of_mem _ h)

/-- Erasing a value is erasing the node at its earliest index. -/
theorem erase_eq_eraseIdx_primero (h : List T) (i : Nat) (m : T)
    (hi : h[i]? = some m) (hprev : ∀ j, j < i → ∀ x, h[j]? = some x → x ≠ m) :
    h.erase m = h.eraseIdx i := by
  induction h generalizing i with
  | nil => simp at hi
  | cons d resto ih =>
    cases i with
    | zero =>
      simp at hi
      simp [hi]
    | succ i =>
      have hd : d ≠ m := hprev 0 (by omega) d (by simp)
      rw [List.erase_cons_tail (by simpa using hd)]
      simp only [List.eraseIdx_cons_succ]
      congr 1
      apply ih i (by simpa using hi)
      intro j hj x hx
      exact hprev (j + 1) (by omega) x (by simpa using hx)

/-- On two or more elements the code and the specification-side removal agree. -/
theorem eliminarMenor_eq_quitarPrimerMinimo (A : Arit T) (hA : A.Ordenada) (h : List T)
    (h2 : 2 ≤ h.length) : eliminarMenor A h = quitarPrimerMinimo h := by
  obtain ⟨i, m, hi, hmin, hfirst, heq⟩ := eliminarMenor_indice A hA h h2
  rw [heq]
  match h, h2 with
  | x :: resto, _ =>
    simp only [quitarPrimerMinimo]
    have hm_mem : m ∈ x :: resto := List.getElem?_mem hi
    have hle : minimoDe x resto ≤ m := by
      rcases List.mem_cons.1 hm_mem with rfl | hm
      · exact minimoDe_le_inicio _ resto
      · exact minimoDe_le_mem x resto m hm
    have hge : m ≤ minimoDe x resto := hmin _ (minimoDe_mem x resto)
    rw [le_antisymm hle hge]
    symm
    exact erase_eq_eraseIdx_primero (x :: resto) i m hi
      (fun j hj y hy => ne_of_gt (hfirst j hj y hy))

end Minimo

/-! ## Lemmas on promedio, insertarFinal and the shape of eliminarMenor -/

section Historial

variable {T : Type}

open ListaSensor

theorem insertarFinal_eq_append (h : ListaSensor T) (v : T) :
    insertarFinal h v = h ++ [v] := by
  induction h with
  | nil => rfl
  | cons d resto ih => simp [insertarFinal, ih]

theorem promedioBucle_eq (A : Arit T) (h : List T) (suma : T) (c : Int) :
    promedioBucle A h suma c = (h.foldl A.mas suma, c + (h.length : Int)) := by
  induction h generalizing suma c with
  | nil => simp [promedioBucle]
  | cons d resto ih =>
    simp only [promedioBucle, ih, List.foldl_cons, List.length_cons]
    congr 1
    push_cast
    ring

/-- The code's mean is the specification-side mean, and the list is left as it was. -/
theorem promedio_eq_media (A : Arit T) (h : ListaSensor T) :
    promedio A h = (media A h, h) := by
  cases h with
  | nil => rfl
  | cons x resto =>
    have hc : (0 : Int) + ((x :: resto).length : Int) ≠ 0 := by
      simp only [List.length_cons]
      push_cast
      omega
    simp only [promedio, media, promedioBucle_eq, if_neg hc]
    simp

/-- The node removed by the scan, whatever the comparison is: `antMenor` is either
`nullptr` or the node right before `menor`. -/
theorem eliminarMenorBucle_forma (A : Arit T) :
    ∀ (resto : List T) (i : Nat) (e : Barrido T),
      ((i = 0 ∧ e.ant = none) ∨ ∃ k, i = k + 1 ∧ e.ant = some k) →
      (e.antMenor = none ∨ ∃ a, e.antMenor = some a ∧ e.menor = a + 1 ∧ a + 1 < i) →
      (fun r : Barrido T =>
        r.antMenor = none ∨
          ∃ a, r.antMenor = some a ∧ r.menor = a + 1 ∧ a + 1 < i + resto.length)
        (eliminarMenorBucle A resto i e) := by
  intro resto
  induction resto with
  | nil => intro i e _ hm; simpa [eliminarMenorBucle] using hm
  | cons d resto ih =>
    intro i e hant hm
    simp only [eliminarMenorBucle]
    have hlen : i + (d :: resto).length = (i + 1) + resto.length := by
      simp only [List.length_cons]; omega
    rw [hlen]
    split
    · apply ih (i + 1) ⟨i, d, e.ant, some i⟩
      · right; exact ⟨i, rfl, rfl⟩
      · rcases hant with ⟨_, h0⟩ | ⟨k, hk, hk2⟩
        · left; exact h0
        · right; exact ⟨k, hk2, hk, by omega⟩
    · apply ih (i + 1) ⟨e.menor, e.dato, e.antMenor, some i⟩
      · right; exact ⟨i, rfl, rfl⟩
      · rcases hm with h0 | ⟨a, ha, hb, hc⟩
        · left; exact h0
        · right; exact ⟨a, ha, hb, by omega⟩

/-- Whatever the comparison is, `eliminarMenor` on two or more nodes unlinks one node. -/
theorem eliminarMenor_eraseIdx (A : Arit T) (h : ListaSensor T) (h2 : 2 ≤ h.length) :
    ∃ i, i < h.length ∧ eliminarMenor A h = h.eraseIdx i := by
  match h, h2 with
  | x :: y :: resto, _ =>
    simp only [eliminarMenor]
    rcases eliminarMenorBucle_forma A (x :: y :: resto) 0 ⟨0, x, none, none⟩
      (Or.inl ⟨rfl, rfl⟩) (Or.inl rfl) with h0 | ⟨a, ha, hb, hc⟩
    · refine ⟨0, by simp, ?_⟩
      rw [h0]; simp
    · refine ⟨a + 1, by simpa using hc, ?_⟩
      rw [ha]
      simp only
      rw [hb, List.eraseIdx_eq_take_drop_succ]

theorem eliminarMenor_length (A : Arit T) (h : ListaSensor T) (h2 : 2 ≤ h.length) :
    (eliminarMenor A h).length + 1 = h.length := by
  obtain ⟨i, hi, heq⟩ := eliminarMenor_eraseIdx A h h2
  rw [heq, List.length_eraseIdx_of_lt hi]
  omega

theorem aritInt_ordenada : aritInt.Ordenada := by
  intro a b
  simp [aritInt]

theorem aritExacta_ordenada : aritExacta.Ordenada := by
  intro a b
  simp [aritExacta]

end Historial

/-! ## The scan of eliminarMenor under a ranking of the values -/

section Clave

variable {T K : Type} [LinearOrder K]

open ListaSensor

/-- What the scan leaves when the comparison agrees, on the values at hand, with the
strict order of a ranking `key`: either nothing ranked below `menor->dato` was met, or
`menor` sits on the earliest node of least rank, with `antMenor` right before it. -/
theorem eliminarMenorBucle_clave (A : Arit T) (key : T → K) (P : T → Prop)
    (hkey : ∀ x y, P x → P y → (A.menor x y = true ↔ key x < key y)) :
    ∀ (resto : List T) (i : Nat) (e : Barrido T), P e.dato → (∀ x ∈ resto, P x) →
      (fun r : Barrido T =>
        (r.menor = e.menor ∧ r.dato = e.dato ∧ r.antMenor = e.antMenor ∧
            ∀ x ∈ resto, key e.dato ≤ key x) ∨
        (∃ j, resto[j]? = some r.dato ∧ r.menor = i + j ∧ key r.dato < key e.dato ∧
            (∀ x ∈ resto, key r.dato ≤ key x) ∧
            (∀ k, k < j → ∀ x, resto[k]? = some x → key r.dato < key x) ∧
            r.antMenor = (if j = 0 then e.ant else some (i + j - 1))))
        (eliminarMenorBucle A resto i e) := by
  intro resto
  induction resto with
  | nil => intro i e _ _; left; simp [eliminarMenorBucle]
  | cons d resto ih =>
    intro i e he hall
    have hPd : P d := hall d (by simp)
    have hPr : ∀ x ∈ resto, P x := fun x hx => hall x (List.mem_cons_of_mem _ hx)
    simp only [eliminarMenorBucle]
    by_cases hd : A.menor d e.dato = true
    · have hlt : key d < key e.dato := (hkey d e.dato hPd he).1 hd
      rw [if_pos hd]
      rcases ih (i + 1) ⟨i, d, e.ant, some i⟩ hPd hPr with
        h | ⟨j, hj, hm, hlt2, hmin, hfirst, hant⟩
      · obtain ⟨h1, h2, h3, h4⟩ := h
        right
        refine ⟨0, ?_, ?_, ?_, ?_, ?_, ?_⟩
        · simp [h2]
        · simp [h1]
        · rw [h2]; exact hlt
        · intro x hx
          rw [h2]
          rcases List.mem_cons.1 hx with rfl | hx
          · exact le_refl _
          · exact h4 x hx
        · intro k hk; omega
        · simp [h3]
      · right
        simp only at hlt2 hant hm
        refine ⟨j + 1, ?_, ?_, ?_, ?_, ?_, ?_⟩
        · simpa using hj
        · omega
        · exact lt_trans hlt2 hlt
        · intro x hx
          rcases List.mem_cons.1 hx with rfl | hx
          · exact le_of_lt hlt2
          · exact hmin x hx
        · intro k hk x hx
          cases k with
          | zero => simp at hx; rw [← hx]; exact hlt2
          | succ k => exact hfirst k (by omega) x (by simpa using hx)
        · rw [hant]
          by_cases hj0 : j = 0
          · simp [hj0]
          · simp [hj0]
    · have hge : key e.dato ≤ key d := by
        rcases lt_or_ge (key d) (key e.dato) with h | h
        · exact absurd ((hkey d e.dato hPd he).2 h) hd
        · exact h
      rw [if_neg hd]
      rcases ih (i + 1) ⟨e.menor, e.dato, e.antMenor, some i⟩ he hPr with
        h | ⟨j, hj, hm, hlt2, hmin, hfirst, hant⟩
      · obtain ⟨h1, h2, h3, h4⟩ := h
        left
        refine ⟨h1, h2, h3, ?_⟩
        intro x hx
        rcases List.mem_cons.1 hx with rfl | hx
        · exact hge
        · exact h4 x hx
      · right
        simp only at hlt2 hant hm
        refine ⟨j + 1, ?_, ?_, hlt2, ?_, ?_, ?_⟩
        · simpa using hj
        · omega
        · intro x hx
          rcases List.mem_cons.1 hx with rfl | hx
          · exact le_of_lt (lt_of_lt_of_le hlt2 hge)
          · exact hmin x hx
        · intro k hk x hx
          cases k with
          | zero => simp at hx; rw [← hx]; exact lt_of_lt_of_le hlt2 hge
          | succ k => exact hfirst k (by omega) x (by simpa using hx)
        · rw [hant]
          by_cases hj0 : j = 0
          · simp [hj0]
          · simp [hj0]

/-- The node `eliminarMenor` unlinks from a list of two or more whose values the
comparison ranks: the earliest one of least rank. -/
theorem eliminarMenor_indice_clave (A : Arit T) (key : T → K) (h : List T)
    (hkey : ∀ x ∈ h, ∀ y ∈ h, (A.menor x y = true ↔ key x < key y))
    (h2 : 2 ≤ h.length) :
    ∃ i m, h[i]? = some m ∧ (∀ x ∈ h, key m ≤ key x) ∧
      (∀ j, j < i → ∀ x, h[j]? = some x → key m < key x) ∧
      eliminarMenor A h = h.eraseIdx i := by
  match h, h2, hkey with
  | x :: y :: resto, _, hkey =>
    simp only [eliminarMenor]
    rcases eliminarMenorBucle_clave A key (fun z => z ∈ x :: y :: resto)
        (fun a b ha hb => hkey a ha b hb) (x :: y :: resto) 0 ⟨0, x, none, none⟩
        (by simp) (fun z hz => hz) with
      h | ⟨j, hj, hm, hlt2, hmin, hfirst, hant⟩
    · obtain ⟨h1, h2, h3, h4⟩ := h
      simp only at h3 h4
      refine ⟨0, x, by simp, h4, ?_, ?_⟩
      · intro j hj; omega
      · rw [h3]; simp
    · simp only at hlt2 hant hm
      have hj0 : j ≠ 0 := by
        intro h0
        rw [h0] at hj
        simp at hj
        rw [← hj] at hlt2
        exact lt_irrefl _ hlt2
      refine ⟨j, _, hj, hmin, hfirst, ?_⟩
      rw [hant, if_neg hj0]
      simp only
      rw [hm, List.eraseIdx_eq_take_drop_succ]
      have : 0 + j - 1 + 1 = j := by omega
      rw [this]
      simp

/-- With a ranking that tells the values of `h` apart, the node of least rank holds the
minimum value in the sense of `EsPrimerMinimo`. -/
theorem esPrimerMinimo_de_clave (A : Arit T) (key : T → K) (h : List T)
    (hkey : ∀ x ∈ h, ∀ y ∈ h, (A.menor x y = true ↔ key x < key y))
    (hinj : ∀ x ∈ h, ∀ y ∈ h, key x = key y → x = y)
    (i : Nat) (m : T) (hi : h[i]? = some m) (hmin : ∀ x ∈ h, key m ≤ key x)
    (hfirst : ∀ j, j < i → ∀ x, h[j]? = some x → key m < key x) :
    EsPrimerMinimo A h i := by
  have hm : m ∈ h := List.getElem?_mem hi
  refine ⟨m, hi, ?_, ?_⟩
  · intro x hx
    rcases lt_or_eq_of_le (hmin x hx) with hlt | heq
    · right; exact (hkey m hm x hx).2 hlt
    · left; exact (hinj m hm x hx heq).symm
  · intro j hj x hx hxm
    have := hfirst j hj x hx
    rw [hxm] at this
    exact lt_irrefl _ this

/-- Without NaN the comparison of `aritNaN` is the order of the numbers. -/
theorem aritNaN_clave (h : List Flot) (hn : Flot.nan ∉ h) :
    (∀ x ∈ h, ∀ y ∈ h, (aritNaN.menor x y = true ↔ Flot.valor x < Flot.valor y)) ∧
      (∀ x ∈ h, ∀ y ∈ h, Flot.valor x = Flot.valor y → x = y) := by
  constructor
  · intro x hx y hy
    cases x with
    | nan => exact absurd hx hn
    | num p =>
      cases y with
      | nan => exact absurd hy hn
      | num q => simp [aritNaN, Flot.valor]
  · intro x hx y hy hv
    cases x with
    | nan => exact absurd hx hn
    | num p =>
      cases y with
      | nan => exact absurd hy hn
      | num q =>
        simp only [Flot.valor] at hv
        rw [hv]

/-- A history that starts with NaN and goes on with two numbers has no minimum value:
NaN is below nothing and nothing is below NaN. -/
theorem sin_minimo_con_nan (p q : Rat) (i : Nat) :
    ¬ EsPrimerMinimo aritNaN [Flot.nan, Flot.num p, Flot.num q] i := by
  rintro ⟨m, hi, hmin, _⟩
  have hm : m ∈ [Flot.nan, Flot.num p, Flot.num q] := List.getElem?_mem hi
  simp only [List.mem_cons, List.mem_singleton, List.not_mem_nil, or_false] at hm
  rcases hm with rfl | rfl | rfl
  · have := hmin (Flot.num p) (by simp)
    simp [aritNaN] at this
  · have := hmin Flot.nan (by simp)
    simp [aritNaN] at this
  · have := hmin Flot.nan (by simp)
    simp [aritNaN] at this

end Clave

/-! ## ListaSensor: the claims -/

section ClaimsHistorial

open ListaSensor

/-- C1 as stated fails on a `float` history holding NaN: for NaN, 5, 1 the comparison
never holds against the head, so `eliminarMenor` unlinks the head NaN and returns 5, 1;
the reading 1, below the reading 5, stays, and no position of the history holds a
minimum value that the result would lack. -/
theorem eliminarMenor_con_nan_deja_el_minimo :
    2 ≤ ([Flot.nan, Flot.num 5, Flot.num 1] : ListaSensor Flot).length ∧
      eliminarMenor aritNaN [Flot.nan, Flot.num 5, Flot.num 1] = [Flot.num 5, Flot.num 1] ∧
      aritNaN.menor (Flot.num 1) (Flot.num 5) = true ∧
      ¬ ∃ i, EsPrimerMinimo aritNaN [Flot.nan, Flot.num 5, Flot.num 1] i ∧
          eliminarMenor aritNaN [Flot.nan, Flot.num 5, Flot.num 1] =
            ([Flot.nan, Flot.num 5, Flot.num 1] : ListaSensor Flot).eraseIdx i := by
  refine ⟨by decide, ?_, ?_, ?_⟩
  · simp [eliminarMenor, eliminarMenorBucle, aritNaN]
  · simp [aritNaN]
  · rintro ⟨i, hi, _⟩
    exact sin_minimo_con_nan 5 1 i hi

/-- C1, amended. On a history of two or more elements whose values the comparison ranks
(it holds between two of them exactly when the rank `key` of the first is below that of
the second, as for every `int` history and every `float` history without NaN),
`eliminarMenor` yields the original sequence without the node at the earliest index
holding the minimum value: that node `i` holds a value `m` ranked below or equal to
every element and strictly below every earlier one, the result is the list with
position `i` erased, it is one shorter, and it keeps the other elements in their order;
when the ranking tells the values apart, `i` is the first minimum of `EsPrimerMinimo`. -/
theorem eliminarMenor_quita_primer_minimo {T K : Type} [LinearOrder K] (A : Arit T)
    (key : T → K) (h : ListaSensor T)
    (hkey : ∀ x ∈ h, ∀ y ∈ h, (A.menor x y = true ↔ key x < key y))
    (h2 : 2 ≤ h.length) :
    ∃ i m, h[i]? = some m ∧ (∀ x ∈ h, key m ≤ key x) ∧
      (∀ j, j < i → ∀ x, h[j]? = some x → key m < key x) ∧
      eliminarMenor A h = h.eraseIdx i ∧
      (eliminarMenor A h).length + 1 = h.length ∧
      (eliminarMenor A h).Sublist h ∧
      ((∀ x ∈ h, ∀ y ∈ h, key x = key y → x = y) → EsPrimerMinimo A h i) := by
  obtain ⟨i, m, hi, hmin, hfirst, heq⟩ := eliminarMenor_indice_clave A key h hkey h2
  refine ⟨i, m, hi, hmin, hfirst, heq, eliminarMenor_length A h h2, ?_, ?_⟩
  · rw [heq]
    exact List.eraseIdx_sublist h i
  · intro hinj
    exact esPrimerMinimo_de_clave A key h hkey hinj i m hi hmin hfirst

/-- Witness for C1 amended, on the `float` history 3, 1, 2, 1 (no NaN): the first 1 goes. -/
theorem eliminarMenor_quita_primer_minimo_witness :
    (∀ x ∈ [Flot.num 3, Flot.num 1, Flot.num 2, Flot.num 1],
        ∀ y ∈ [Flot.num 3, Flot.num 1, Flot.num 2, Flot.num 1],
          (aritNaN.menor x y = true ↔ Flot.valor x < Flot.valor y)) ∧
      2 ≤ ([Flot.num 3, Flot.num 1, Flot.num 2, Flot.num 1] : ListaSensor Flot).length ∧
      eliminarMenor aritNaN [Flot.num 3, Flot.num 1, Flot.num 2, Flot.num 1] =
        [Flot.num 3, Flot.num 2, Flot.num 1] ∧
      ∃ i m, ([Flot.num 3, Flot.num 1, Flot.num 2, Flot.num 1] : ListaSensor Flot)[i]? =
          some m ∧
        (∀ x ∈ [Flot.num 3, Flot.num 1, Flot.num 2, Flot.num 1],
          Flot.valor m ≤ Flot.valor x) ∧
        (∀ j, j < i → ∀ x,
          ([Flot.num 3, Flot.num 1, Flot.num 2, Flot.num 1] : ListaSensor Flot)[j]? = some x →
            Flot.valor m < Flot.valor x) ∧
        eliminarMenor aritNaN [Flot.num 3, Flot.num 1, Flot.num 2, Flot.num 1] =
          ([Flot.num 3, Flot.num 1, Flot.num 2, Flot.num 1] : ListaSensor Flot).eraseIdx i ∧
        (eliminarMenor aritNaN [Flot.num 3, Flot.num 1, Flot.num 2, Flot.num 1]).length + 1 =
          ([Flot.num 3, Flot.num 1, Flot.num 2, Flot.num 1] : ListaSensor Flot).length ∧
        (eliminarMenor aritNaN [Flot.num 3, Flot.num 1, Flot.num 2, Flot.num 1]).Sublist
          [Flot.num 3, Flot.num 1, Flot.num 2, Flot.num 1] ∧
        ((∀ x ∈ [Flot.num 3, Flot.num 1, Flot.num 2, Flot.num 1],
            ∀ y ∈ [Flot.num 3, Flot.num 1, Flot.num 2, Flot.num 1],
              Flot.valor x = Flot.valor y → x = y) →
          EsPrimerMinimo aritNaN [Flot.num 3, Flot.num 1, Flot.num 2, Flot.num 1] i) :=
  ⟨(aritNaN_clave _ (by decide)).1, by decide,
    by simp [eliminarMenor, eliminarMenorBucle, aritNaN],
    eliminarMenor_quita_primer_minimo aritNaN Flot.valor
      [Flot.num 3, Flot.num 1, Flot.num 2, Flot.num 1] (aritNaN_clave _ (by decide)).1
      (by decide)⟩

/-- C2. `promedio` returns `static_cast<T>(0)` on the empty history and otherwise the
sum of the elements, accumulated in list order in the arithmetic of `T`, divided in `T`
by the number of elements; in both cases the history is left unchanged. -/
theorem promedio_es_suma_entre_cuenta {T : Type} (A : Arit T) :
    promedio A [] = (A.cero, []) ∧
      ∀ (x : T) (resto : List T),
        promedio A (x :: resto) =
          (A.entre ((x :: resto).foldl A.mas A.cero) (((x :: resto).length : Nat) : Int),
            x :: resto) := by
  refine ⟨rfl, ?_⟩
  intro x resto
  rw [promedio_eq_media]
  rfl

/-- C10. On a history of no element or one element `eliminarMenor` changes nothing. -/
theorem eliminarMenor_sin_efecto {T : Type} (A : Arit T) (h : ListaSensor T)
    (h1 : h.length ≤ 1) : eliminarMenor A h = h := by
  match h, h1 with
  | [], _ => rfl
  | [_], _ => rfl

/-- Witness for C10 on the single reading 7. -/
theorem eliminarMenor_sin_efecto_witness :
    ([7] : ListaSensor Int).length ≤ 1 ∧ eliminarMenor aritInt [7] = [7] :=
  ⟨by decide, eliminarMenor_sin_efecto aritInt [7] (by decide)⟩

end ClaimsHistorial

/-! ## Sensors: the claims -/

section ClaimsSensores

open ListaSensor

theorem estaVacia_eq_false_of_length {T : Type} (h : ListaSensor T) (h1 : 1 ≤ h.length) :
    estaVacia h = false := by
  cases h with
  | nil => simp at h1
  | cons x resto => rfl

/-- What `SensorTemperatura::procesarLectura` does on a history that is not empty. -/
theorem temperatura_procesarLectura_eq {F : Type} (A : Arit F) (s : SensorTemperatura F)
    (h1 : 1 ≤ s.historial.length) :
    SensorTemperatura.procesarLectura A s =
      (⟨s.nombre, eliminarMenor A s.historial⟩,
        [Linea.texto ("-> Procesando Sensor ".toList ++ s.nombre ++ " (Temperatura)".toList),
          Linea.conFloat "   Promedio después de eliminar menor: ".toList
            (media A (eliminarMenor A s.historial))]) := by
  simp only [SensorTemperatura.procesarLectura, estaVacia_eq_false_of_length s.historial h1,
    promedio_eq_media]
  simp

/-- C3 as stated fails on a Temperature sensor holding NaN: with the readings NaN, 1, 2
`procesarLectura` unlinks the head NaN, leaves 1, 2 and reports their mean 3/2; the
reading 1, below the reading 2, stays, and no position of the history holds a minimum
value that the history left would lack. -/
theorem temperatura_con_nan_deja_el_minimo :
    2 ≤ (SensorTemperatura.mk "T-001".toList
        [Flot.nan, Flot.num 1, Flot.num 2]).historial.length ∧
      SensorTemperatura.procesarLectura aritNaN
          ⟨"T-001".toList, [Flot.nan, Flot.num 1, Flot.num 2]⟩ =
        (⟨"T-001".toList, [Flot.num 1, Flot.num 2]⟩,
          [Linea.texto "-> Procesando Sensor T-001 (Temperatura)".toList,
            Linea.conFloat "   Promedio después de eliminar menor: ".toList
              (Flot.num (3 / 2))]) ∧
      aritNaN.menor (Flot.num 1) (Flot.num 2) = true ∧
      ¬ ∃ i, EsPrimerMinimo aritNaN [Flot.nan, Flot.num 1, Flot.num 2] i ∧
          (SensorTemperatura.procesarLectura aritNaN
              ⟨"T-001".toList, [Flot.nan, Flot.num 1, Flot.num 2]⟩).1.historial =
            ([Flot.nan, Flot.num 1, Flot.num 2] : ListaSensor Flot).eraseIdx i := by
  refine ⟨by decide, ?_, ?_, ?_⟩
  · rw [temperatura_procesarLectura_eq _ _ (by decide)]
    have he : eliminarMenor aritNaN [Flot.nan, Flot.num 1, Flot.num 2] =
        [Flot.num 1, Flot.num 2] := by
      simp [eliminarMenor, eliminarMenorBucle, aritNaN]
    have hm : media aritNaN [Flot.num 1, Flot.num 2] = Flot.num (3 / 2) := by
      simp [media, aritNaN]
      norm_num
    simp only [he, hm]
    rfl
  · simp [aritNaN]
  · rintro ⟨i, hi, _⟩
    exact sin_minimo_con_nan 1 2 i hi

/-- C3, amended. For a Temperature sensor with two or more readings whose values the
comparison ranks (it holds between two of them exactly when the rank `key` of the first
is below that of the second, as for readings without NaN), `procesarLectura` leaves the
history without the reading at the earliest index holding the minimum value and reports
the mean of that reduced history. -/
theorem temperatura_procesarLectura_quita_minimo {F K : Type} [LinearOrder K] (A : Arit F)
    (key : F → K) (s : SensorTemperatura F)
    (hkey : ∀ x ∈ s.historial, ∀ y ∈ s.historial, (A.menor x y = true ↔ key x < key y))
    (h2 : 2 ≤ s.historial.length) :
    ∃ i m, s.historial[i]? = some m ∧ (∀ x ∈ s.historial, key m ≤ key x) ∧
      (∀ j, j < i → ∀ x, s.historial[j]? = some x → key m < key x) ∧
      SensorTemperatura.procesarLectura A s =
        (⟨s.nombre, s.historial.eraseIdx i⟩,
          [Linea.texto
              ("-> Procesando Sensor ".toList ++ s.nombre ++ " (Temperatura)".toList),
            Linea.conFloat "   Promedio después de eliminar menor: ".toList
              (media A (s.historial.eraseIdx i))]) ∧
      ((∀ x ∈ s.historial, ∀ y ∈ s.historial, key x = key y → x = y) →
        EsPrimerMinimo A s.historial i) := by
  obtain ⟨i, m, hi, hmin, hfirst, heq⟩ :=
    eliminarMenor_indice_clave A key s.historial hkey h2
  refine ⟨i, m, hi, hmin, hfirst, ?_, ?_⟩
  · rw [temperatura_procesarLectura_eq A s (by omega), heq]
  · intro hinj
    exact esPrimerMinimo_de_clave A key s.historial hkey hinj i m hi hmin hfirst

/-- Witness for C3 amended: readings 30, 10, 20 (no NaN) leave the history 30, 20 and
report 25. -/
theorem temperatura_procesarLectura_quita_minimo_witness :
    (∀ x ∈ (SensorTemperatura.mk "T-001".toList
          [Flot.num 30, Flot.num 10, Flot.num 20]).historial,
        ∀ y ∈ (SensorTemperatura.mk "T-001".toList
            [Flot.num 30, Flot.num 10, Flot.num 20]).historial,
          (aritNaN.menor x y = true ↔ Flot.valor x < Flot.valor y)) ∧
      2 ≤ (SensorTemperatura.mk "T-001".toList
        [Flot.num 30, Flot.num 10, Flot.num 20]).historial.length ∧
      SensorTemperatura.procesarLectura aritNaN
          ⟨"T-001".toList, [Flot.num 30, Flot.num 10, Flot.num 20]⟩ =
        (⟨"T-001".toList, [Flot.num 30, Flot.num 20]⟩,
          [Linea.texto "-> Procesando Sensor T-001 (Temperatura)".toList,
            Linea.conFloat "   Promedio después de eliminar menor: ".toList (Flot.num 25)]) ∧
      ∃ i m, (SensorTemperatura.mk "T-001".toList
            [Flot.num 30, Flot.num 10, Flot.num 20]).historial[i]? = some m ∧
        (∀ x ∈ (SensorTemperatura.mk "T-001".toList
            [Flot.num 30, Flot.num 10, Flot.num 20]).historial,
          Flot.valor m ≤ Flot.valor x) ∧
        SensorTemperatura.procesarLectura aritNaN
            ⟨"T-001".toList, [Flot.num 30, Flot.num 10, Flot.num 20]⟩ =
          (⟨"T-001".toList,
              ([Flot.num 30, Flot.num 10, Flot.num 20] : ListaSensor Flot).eraseIdx i⟩,
            [Linea.texto "-> Procesando Sensor T-001 (Temperatura)".toList,
              Linea.conFloat "   Promedio después de eliminar menor: ".toList
                (media aritNaN
                  (([Flot.num 30, Flot.num 10, Flot.num 20] : ListaSensor Flot).eraseIdx
                    i))]) := by
  have hk := (aritNaN_clave [Flot.num 30, Flot.num 10, Flot.num 20] (by decide)).1
  refine ⟨hk, by decide, ?_, ?_⟩
  · rw [temperatura_procesarLectura_eq _ _ (by decide)]
    have he : eliminarMenor aritNaN [Flot.num 30, Flot.num 10, Flot.num 20] =
        [Flot.num 30, Flot.num 20] := by
      simp [eliminarMenor, eliminarMenorBucle, aritNaN]
      norm_num
    have hm : media aritNaN [Flot.num 30, Flot.num 20] = Flot.num 25 := by
      simp [media, aritNaN]
      norm_num
    simp only [he, hm]
    rfl
  · obtain ⟨i, m, hi, hmin, _, heq, _⟩ :=
      temperatura_procesarLectura_quita_minimo aritNaN Flot.valor
        ⟨"T-001".toList, [Flot.num 30, Flot.num 10, Flot.num 20]⟩ hk (by decide)
    exact ⟨i, m, hi, hmin, heq⟩

/-- C5. For a Pressure sensor `procesarLectura` returns the sensor unchanged, so a second
call right after the first writes the same lines with the same mean; readings 100, 200
report 150 both times. -/
theorem presion_procesarLectura_idempotente {F : Type} :
    (∀ s : SensorPresion,
        (SensorPresion.procesarLectura s : SensorPresion × List (Linea F)).1 = s ∧
        (SensorPresion.procesarLectura
            (SensorPresion.procesarLectura s : SensorPresion × List (Linea F)).1
          : SensorPresion × List (Linea F)) = SensorPresion.procesarLectura s) ∧
      (SensorPresion.procesarLectura ⟨"P-001".toList, [100, 200]⟩
          : SensorPresion × List (Linea F)) =
        (⟨"P-001".toList, [100, 200]⟩,
          [Linea.texto "-> Procesando Sensor P-001 (Presion)".toList,
            Linea.conInt "   Promedio de lecturas: ".toList 150]) ∧
      (SensorPresion.procesarLectura
          (SensorPresion.procesarLectura ⟨"P-001".toList, [100, 200]⟩
            : SensorPresion × List (Linea F)).1 : SensorPresion × List (Linea F)) =
        (⟨"P-001".toList, [100, 200]⟩,
          [Linea.texto "-> Procesando Sensor P-001 (Presion)".toList,
            Linea.conInt "   Promedio de lecturas: ".toList 150]) := by
  have hs : ∀ s : SensorPresion,
      (SensorPresion.procesarLectura s : SensorPresion × List (Linea F)).1 = s := by
    intro s
    unfold SensorPresion.procesarLectura
    split
    · rfl
    · simp [promedio_eq_media]
  have he : (SensorPresion.procesarLectura ⟨"P-001".toList, [100, 200]⟩
      : SensorPresion × List (Linea F)) =
        (⟨"P-001".toList, [100, 200]⟩,
          [Linea.texto "-> Procesando Sensor P-001 (Presion)".toList,
            Linea.conInt "   Promedio de lecturas: ".toList 150]) := by
    have hm : media aritInt [100, 200] = 150 := by decide
    simp only [SensorPresion.procesarLectura, promedio_eq_media, hm]
    rfl
  refine ⟨fun s => ⟨hs s, by rw [hs s]⟩, he, ?_⟩
  rw [hs]
  exact he

end ClaimsSensores

/-! ## Lemmas on the C library conversions -/

section Conversiones

theorem wrap32_eq_self (z : Int) (h1 : -(2 ^ 31) ≤ z) (h2 : z < 2 ^ 31) : wrap32 z = z := by
  unfold wrap32
  norm_num at h1 h2 ⊢
  omega

end Conversiones

/-! ## Text ingestion: the claims -/

section ClaimsTexto

end ClaimsTexto

/-! ## Lemmas on the registry -/

section Registro

variable {F : Type}

open ListaGestion

theorem insertar_eq_append (lista : ListaGestion F) (s : SensorBase F) :
    insertar lista s = lista ++ [s] := by
  induction lista with
  | nil => rfl
  | cons d resto ih => simp [insertar, ih]

theorem buscarDesde_eq_some (lista : List (SensorBase F)) (k : Nat) (nom : CStr) (i : Nat) :
    buscarDesde lista k nom = some i ↔
      ∃ j, i = k + j ∧ (∃ s, lista[j]? = some s ∧ s.getNombre = nom) ∧
        ∀ j2, j2 < j → ∀ s, lista[j2]? = some s → s.getNombre ≠ nom := by
  induction lista generalizing k with
  | nil => simp [buscarDesde]
  | cons d resto ih =>
    simp only [buscarDesde]
    by_cases hd : d.getNombre = nom
    · rw [if_pos hd]
      constructor
      · intro h
        simp only [Option.some.injEq] at h
        exact ⟨0, by omega, ⟨d, by simp, hd⟩, fun j2 hj2 => by omega⟩
      · rintro ⟨j, hj, _, hprev⟩
        cases j with
        | zero => simp [hj]
        | succ j => exact absurd hd (hprev 0 (by omega) d (by simp))
    · rw [if_neg hd, ih (k + 1)]
      constructor
      · rintro ⟨j, hj, ⟨s, hs, hn⟩, hprev⟩
        refine ⟨j + 1, by omega, ⟨s, by simpa using hs, hn⟩, ?_⟩
        intro j2 hj2 s2 hs2
        cases j2 with
        | zero =>
          simp only [List.getElem?_cons_zero, Option.some.injEq] at hs2
          rw [← hs2]; exact hd
        | succ j2 => exact hprev j2 (by omega) s2 (by simpa using hs2)
      · rintro ⟨j, hj, ⟨s, hs, hn⟩, hprev⟩
        cases j with
        | zero =>
          simp only [List.getElem?_cons_zero, Option.some.injEq] at hs
          rw [← hs] at hn
          exact absurd hn hd
        | succ j =>
          refine ⟨j, by omega, ⟨s, by simpa using hs, hn⟩, ?_⟩
          intro j2 hj2 s2 hs2
          exact hprev (j2 + 1) (by omega) s2 (by simpa using hs2)

theorem buscarDesde_eq_none (lista : List (SensorBase F)) (k : Nat) (nom : CStr) :
    buscarDesde lista k nom = none ↔ ∀ s ∈ lista, s.getNombre ≠ nom := by
  induction lista generalizing k with
  | nil => simp [buscarDesde]
  | cons d resto ih =>
    simp only [buscarDesde]
    by_cases hd : d.getNombre = nom
    · simp [hd]
    · rw [if_neg hd, ih (k + 1)]
      simp [hd]

end Registro

/-! ## Registry: the claims -/

section ClaimsRegistro

open ListaGestion

/-- C6. `buscarPorNombre` returns the sensor at index `i` exactly when that sensor has the
given name and no sensor inserted before it has it, and returns `nullptr` exactly when no
sensor of the registry has the name. -/
theorem buscarPorNombre_primera_coincidencia {F : Type} (lista : ListaGestion F)
    (nom : CStr) :
    (∀ i, buscarPorNombre lista nom = some i ↔
        ((∃ s, lista[i]? = some s ∧ s.getNombre = nom) ∧
          ∀ j, j < i → ∀ s, lista[j]? = some s → s.getNombre ≠ nom)) ∧
      (buscarPorNombre lista nom = none ↔ ∀ s ∈ lista, s.getNombre ≠ nom) := by
  refine ⟨?_, buscarDesde_eq_none lista 0 nom⟩
  intro i
  unfold buscarPorNombre
  rw [buscarDesde_eq_some]
  constructor
  · rintro ⟨j, hj, hs, hprev⟩
    have : i = j := by omega
    subst this
    exact ⟨hs, hprev⟩
  · rintro ⟨hs, hprev⟩
    exact ⟨i, by omega, hs, hprev⟩

/-- C7 on the code: creating a Temperature sensor `T-001` twice from the empty registry is
a reachable registry that holds two sensors of that name. -/
theorem crearSensorPorTipo_repite_nombre :
    Alcanzable (crearSensorPorTipo 'T' "T-001".toList
        (crearSensorPorTipo 'T' "T-001".toList ([] : ListaGestion Rat)).2.1).2.1 ∧
      (crearSensorPorTipo 'T' "T-001".toList
          (crearSensorPorTipo 'T' "T-001".toList ([] : ListaGestion Rat)).2.1).2.1.map
        SensorBase.getNombre = ["T-001".toList, "T-001".toList] ∧
      ¬ ((crearSensorPorTipo 'T' "T-001".toList
          (crearSensorPorTipo 'T' "T-001".toList ([] : ListaGestion Rat)).2.1).2.1.map
        SensorBase.getNombre).Nodup := by
  refine ⟨?_, by decide, by decide⟩
  exact Alcanzable.crear _ 'T' _ (Alcanzable.crear _ 'T' _ Alcanzable.vacia)

/-- C9 as stated fails on a long id: creating a Temperature sensor from an id of 50
characters gives a sensor named with the first 49 of them, not with the id. -/
theorem crearSensorPorTipo_nombre_truncado :
    (crearSensorPorTipo 'T' (List.replicate 50 'a') ([] : ListaGestion Rat)).2.1.map
        SensorBase.getNombre = [List.replicate 49 'a'] ∧
      ¬ ((crearSensorPorTipo 'T' (List.replicate 50 'a') ([] : ListaGestion Rat)).2.1.map
        SensorBase.getNombre = [List.replicate 50 'a']) := by
  constructor <;> decide

/-- C9, amended. `crearSensorPorTipo` with tag `T` returns a new Temperature sensor, with
tag `P` a new Pressure sensor, in both cases with an empty history, named with the first
49 characters of the id (the id itself when it has at most 49) and appended as the last
registry entry; with any other tag it returns `nullptr` and the registry is unchanged. -/
theorem crearSensorPorTipo_despacho {F : Type} (lista : ListaGestion F) (id : CStr)
    (tipo : Char) :
    (tipo = 'T' →
        (crearSensorPorTipo tipo id lista).1 = some lista.length ∧
        (crearSensorPorTipo tipo id lista).2.1 =
          lista ++ [SensorBase.temperatura ⟨id.take 49, []⟩]) ∧
      (tipo = 'P' →
        (crearSensorPorTipo tipo id lista).1 = some lista.length ∧
        (crearSensorPorTipo tipo id lista).2.1 =
          lista ++ [SensorBase.presion ⟨id.take 49, []⟩]) ∧
      (tipo ≠ 'T' → tipo ≠ 'P' →
        (crearSensorPorTipo tipo id lista).1 = none ∧
        (crearSensorPorTipo tipo id lista).2.1 = lista) ∧
      (id.length ≤ 49 → id.take 49 = id) := by
  refine ⟨?_, ?_, ?_, ?_⟩
  · intro h
    subst h
    simp [crearSensorPorTipo, insertar_eq_append, SensorTemperatura.nuevo, copiarNombre]
  · intro h
    subst h
    simp [crearSensorPorTipo, insertar_eq_append, SensorPresion.nuevo, copiarNombre]
  · intro h1 h2
    simp [crearSensorPorTipo, h1, h2]
  · intro h
    exact List.take_of_length_le h

/-- Witness for C9 amended: tag `T` with id `T-001` on the empty registry, tag `P` with id
`P-001` after it, and the rejected tag `X`. -/
theorem crearSensorPorTipo_despacho_witness :
    (crearSensorPorTipo 'T' "T-001".toList ([] : ListaGestion Rat)).1 = some 0 ∧
      (crearSensorPorTipo 'T' "T-001".toList ([] : ListaGestion Rat)).2.1 =
        [] ++ [SensorBase.temperatura ⟨"T-001".toList.take 49, []⟩] ∧
      "T-001".toList.take 49 = "T-001".toList ∧
      (crearSensorPorTipo 'P' "P-001".toList
          ([SensorBase.temperatura ⟨"T-001".toList, []⟩] : ListaGestion Rat)).2.1 =
        [SensorBase.temperatura ⟨"T-001".toList, []⟩] ++
          [SensorBase.presion ⟨"P-001".toList.take 49, []⟩] ∧
      (crearSensorPorTipo 'X' "T-001".toList ([] : ListaGestion Rat)).1 = none ∧
      (crearSensorPorTipo 'X' "T-001".toList ([] : ListaGestion Rat)).2.1 = [] :=
  ⟨((crearSensorPorTipo_despacho ([] : ListaGestion Rat) "T-001".toList 'T').1 rfl).1,
    ((crearSensorPorTipo_despacho ([] : ListaGestion Rat) "T-001".toList 'T').1 rfl).2,
    (crearSensorPorTipo_despacho ([] : ListaGestion Rat) "T-001".toList 'T').2.2.2
      (by decide),
    ((crearSensorPorTipo_despacho
      ([SensorBase.temperatura ⟨"T-001".toList, []⟩] : ListaGestion Rat)
      "P-001".toList 'P').2.1 rfl).2,
    ((crearSensorPorTipo_despacho ([] : ListaGestion Rat) "T-001".toList 'X').2.2.1
      (by decide) (by decide)).1,
    ((crearSensorPorTipo_despacho ([] : ListaGestion Rat) "T-001".toList 'X').2.2.1
      (by decide) (by decide)).2⟩

end ClaimsRegistro


/-! ## Lemmas on the arithmetic of `int` -/

section AritInt

open ListaSensor

theorem wrap32_wrap32_add (a b : Int) : wrap32 (wrap32 a + b) = wrap32 (a + b) := by
  unfold wrap32
  norm_num
  omega

theorem wrap32_idem (a : Int) : wrap32 (wrap32 a) = wrap32 a := by
  unfold wrap32
  norm_num

theorem wrap32_foldl_mas (h : List Int) (acc : Int) :
    wrap32 (h.foldl aritInt.mas acc) = wrap32 (acc + h.sum) := by
  induction h generalizing acc with
  | nil => simp
  | cons x r ih =>
    simp only [List.foldl_cons, List.sum_cons]
    rw [ih]
    show wrap32 (wrap32 (acc + x) + r.sum) = wrap32 (acc + (x + r.sum))
    rw [wrap32_wrap32_add, add_assoc]

theorem foldl_mas_fijo (h : List Int) (acc : Int) (hacc : wrap32 acc = acc) :
    wrap32 (h.foldl aritInt.mas acc) = h.foldl aritInt.mas acc := by
  induction h generalizing acc with
  | nil => simpa using hacc
  | cons x r ih =>
    simp only [List.foldl_cons]
    exact ih _ (wrap32_idem _)

/-- The sum the loop of `promedio` accumulates in an `int` is the sum of the readings
reduced to 32 bits. -/
theorem foldl_mas_eq_wrap32_sum (h : List Int) :
    h.foldl aritInt.mas aritInt.cero = wrap32 h.sum := by
  have h0 : wrap32 (0 : Int) = 0 := by decide
  have h1 := foldl_mas_fijo h 0 h0
  have h2 := wrap32_foldl_mas h 0
  show h.foldl aritInt.mas 0 = wrap32 h.sum
  rw [← h1, h2, zero_add]

theorem tdiv_en_rango (s : Int) (n : Nat) (hlo : -(2 ^ 31) ≤ s) (hhi : s < 2 ^ 31) :
    -(2 ^ 31) ≤ Int.tdiv s n ∧ Int.tdiv s n < 2 ^ 31 := by
  have hn : (0 : Int) ≤ (n : Int) := Int.ofNat_nonneg n
  rcases le_or_lt 0 s with hs | hs
  · have h1 : 0 ≤ Int.tdiv s n := Int.tdiv_nonneg hs hn
    have h2 : Int.tdiv s n ≤ s := by
      rw [Int.tdiv_eq_ediv hs hn]
      exact Int.ediv_le_self _ hs
    constructor <;> omega
  · have hs2 : 0 ≤ -s := by omega
    have h1 : 0 ≤ Int.tdiv (-s) n := Int.tdiv_nonneg hs2 hn
    have h2 : Int.tdiv (-s) n ≤ -s := by
      rw [Int.tdiv_eq_ediv hs2 hn]
      exact Int.ediv_le_self _ hs2
    rw [Int.neg_tdiv] at h1 h2
    constructor <;> omega

/-- The mean of an `int` history whose sum fits 32 bits. -/
theorem media_aritInt (h : List Int) (hne : h ≠ []) (hlo : -(2 ^ 31) ≤ h.sum)
    (hhi : h.sum < 2 ^ 31) : media aritInt h = Int.tdiv h.sum (h.length : Int) := by
  cases h with
  | nil => exact absurd rfl hne
  | cons x r =>
    simp only [media]
    rw [foldl_mas_eq_wrap32_sum, wrap32_eq_self _ hlo hhi]
    show wrap32 (Int.tdiv _ _) = _
    have hr := tdiv_en_rango (x :: r).sum (x :: r).length hlo hhi
    exact wrap32_eq_self _ hr.1 hr.2

end AritInt

/-! ## ListaSensor and ListaGestion: further claims -/

section ClaimsListas

open ListaSensor ListaGestion

/-- C11. For a non-empty `int` history whose sum fits a 32-bit `int`, `promedio` returns
the sum divided by the count with the quotient truncated toward zero: its magnitude is
the magnitude of the sum divided by the count, rounded down, and its sign is that of the
sum. The history is unchanged. -/
theorem promedio_int_trunca_hacia_cero (h : ListaSensor Int) (hne : h ≠ [])
    (hlo : -(2 ^ 31) ≤ h.sum) (hhi : h.sum < 2 ^ 31) :
    promedio aritInt h = (Int.tdiv h.sum (h.length : Int), h) ∧
      (promedio aritInt h).1.natAbs = h.sum.natAbs / h.length ∧
      (0 ≤ h.sum → 0 ≤ (promedio aritInt h).1) ∧
      (h.sum ≤ 0 → (promedio aritInt h).1 ≤ 0) := by
  have hp : promedio aritInt h = (Int.tdiv h.sum (h.length : Int), h) := by
    rw [promedio_eq_media, media_aritInt h hne hlo hhi]
  refine ⟨hp, ?_, ?_, ?_⟩
  · rw [hp]
    simp only [Int.natAbs_tdiv, Int.natAbs_ofNat]
    rfl
  · intro hs
    rw [hp]
    exact Int.tdiv_nonneg hs (Int.ofNat_nonneg _)
  · intro hs
    rw [hp]
    have h1 : 0 ≤ Int.tdiv (-h.sum) (h.length : Int) :=
      Int.tdiv_nonneg (by omega) (Int.ofNat_nonneg _)
    rw [Int.neg_tdiv] at h1
    simp only at h1 ⊢
    omega

/-- Witness for C11: readings -3, -4 give -3, where the floored and the Euclidean
quotient of -7 by 2 are both -4. -/
theorem promedio_int_trunca_hacia_cero_witness :
    ([-3, -4] : ListaSensor Int) ≠ [] ∧
      -(2 ^ 31) ≤ ([-3, -4] : ListaSensor Int).sum ∧
      ([-3, -4] : ListaSensor Int).sum < 2 ^ 31 ∧
      promedio aritInt [-3, -4] = (-3, [-3, -4]) ∧
      Int.fdiv (-7) 2 = -4 ∧ (-7 : Int) / 2 = -4 :=
  ⟨by decide, by decide, by decide,
    (promedio_int_trunca_hacia_cero [-3, -4] (by decide) (by decide) (by decide)).1,
    by decide, by decide⟩

/-- C12. The call `insertarFinal(v)` on a history `h` yields `h` followed by `v`: one
element more, `v` last, the first `h.length` elements being `h`; and
`agregarLecturaDesdeTexto` on a sensor of either kind makes its history one longer. -/
theorem insertarFinal_agrega_al_final {F : Type} (fl : Flotante F) :
    (∀ (T : Type) (h : ListaSensor T) (v : T),
        insertarFinal h v = h ++ [v] ∧
        (insertarFinal h v).length = h.length + 1 ∧
        (insertarFinal h v).getLast? = some v ∧
        (insertarFinal h v).take h.length = h) ∧
      (∀ (s : SensorTemperatura F) (txt : CStr),
        (SensorTemperatura.agregarLecturaDesdeTexto fl s txt).1.historial.length =
          s.historial.length + 1 ∧
        (SensorTemperatura.agregarLecturaDesdeTexto fl s txt).1.nombre = s.nombre) ∧
      (∀ (s : SensorPresion) (txt : CStr),
        (SensorPresion.agregarLecturaDesdeTexto s txt
            : SensorPresion × List (Linea F)).1.historial.length =
          s.historial.length + 1 ∧
        (SensorPresion.agregarLecturaDesdeTexto s txt
            : SensorPresion × List (Linea F)).1.nombre = s.nombre) := by
  refine ⟨?_, ?_, ?_⟩
  · intro T h v
    rw [insertarFinal_eq_append]
    refine ⟨rfl, by simp, by simp, by simp⟩
  · intro s txt
    simp [SensorTemperatura.agregarLecturaDesdeTexto, insertarFinal_eq_append]
  · intro s txt
    simp [SensorPresion.agregarLecturaDesdeTexto, insertarFinal_eq_append]

/-- C13. The call `insertar(s)` on a registry `r` yields `r` followed by `s`: one entry
more, `s` last, the first `r.length` entries being `r`, whatever the names already in
`r`; inserting a second sensor named `T-001` after a first one keeps both. -/
theorem insertar_agrega_al_final {F : Type} :
    (∀ (r : ListaGestion F) (s : SensorBase F),
        insertar r s = r ++ [s] ∧
        (insertar r s).length = r.length + 1 ∧
        (insertar r s).getLast? = some s ∧
        (insertar r s).take r.length = r) ∧
      insertar ([SensorBase.temperatura ⟨"T-001".toList, []⟩] : ListaGestion F)
          (SensorBase.presion ⟨"T-001".toList, []⟩) =
        [SensorBase.temperatura ⟨"T-001".toList, []⟩,
          SensorBase.presion ⟨"T-001".toList, []⟩] := by
  refine ⟨?_, rfl⟩
  intro r s
  rw [insertar_eq_append]
  exact ⟨rfl, by simp, by simp, by simp⟩

end ClaimsListas

/-! ## Lemmas on processing and printing -/

section Proceso

variable {F : Type}

open ListaSensor ListaGestion

theorem eliminarMenor_ne_nil {T : Type} (A : Arit T) (h : ListaSensor T) (hne : h ≠ []) :
    eliminarMenor A h ≠ [] := by
  match h, hne with
  | [x], _ => simp [eliminarMenor]
  | x :: y :: r, _ =>
    have hl := eliminarMenor_length A (x :: y :: r) (by simp)
    intro h0
    rw [h0] at hl
    simp at hl

theorem presion_procesarLectura_fst (p : SensorPresion) :
    (SensorPresion.procesarLectura p : SensorPresion × List (Linea F)).1 = p := by
  unfold SensorPresion.procesarLectura
  split
  · rfl
  · simp [promedio_eq_media]

theorem temperatura_procesarLectura_fst (A : Arit F) (t : SensorTemperatura F) :
    (SensorTemperatura.procesarLectura A t).1 = ⟨t.nombre, eliminarMenor A t.historial⟩ := by
  cases ht : t.historial with
  | nil =>
    cases t
    simp only at ht
    subst ht
    rfl
  | cons x r =>
    rw [temperatura_procesarLectura_eq A t (by rw [ht]; simp), ht]

theorem procesarLectura_getNombre (A : Arit F) (s : SensorBase F) :
    (SensorBase.procesarLectura A s).1.getNombre = s.getNombre := by
  cases s with
  | temperatura t =>
    simp only [SensorBase.procesarLectura, SensorBase.getNombre,
      temperatura_procesarLectura_fst]
  | presion p =>
    simp only [SensorBase.procesarLectura, SensorBase.getNombre, presion_procesarLectura_fst]

theorem procesarBucle_eq (A : Arit F) (r : List (SensorBase F)) :
    procesarBucle A r =
      (r.map (fun s => (SensorBase.procesarLectura A s).1),
        r.flatMap (fun s => (SensorBase.procesarLectura A s).2)) := by
  induction r with
  | nil => rfl
  | cons s r ih => simp [procesarBucle, ih]

theorem imprimirBucle_eq (r : List (SensorBase F)) :
    imprimirBucle r = r.map lineaIdentidad := by
  induction r with
  | nil => rfl
  | cons s r ih =>
    cases s <;>
      simp [imprimirBucle, ih, SensorBase.imprimirInfo, SensorTemperatura.imprimirInfo,
        SensorPresion.imprimirInfo, lineaIdentidad]

end Proceso

/-! ## Processing and printing: the claims -/

section ClaimsProceso

open ListaSensor ListaGestion

/-- C14 as stated fails on a Temperature sensor holding NaN: `procesarTodos` on a
registry whose one sensor holds NaN, 1, 2 leaves that sensor with 1, 2; the reading 1,
below the reading 2, stays, and no position of the history holds a minimum value that
the history left would lack. -/
theorem procesarTodos_con_nan_deja_el_minimo :
    (procesarTodos aritNaN
        [SensorBase.temperatura ⟨"T-001".toList, [Flot.nan, Flot.num 1, Flot.num 2]⟩]).1 =
        [SensorBase.temperatura ⟨"T-001".toList, [Flot.num 1, Flot.num 2]⟩] ∧
      2 ≤ ([Flot.nan, Flot.num 1, Flot.num 2] : ListaSensor Flot).length ∧
      aritNaN.menor (Flot.num 1) (Flot.num 2) = true ∧
      ¬ ∃ k, EsPrimerMinimo aritNaN [Flot.nan, Flot.num 1, Flot.num 2] k ∧
          (procesarTodos aritNaN
              [SensorBase.temperatura
                ⟨"T-001".toList, [Flot.nan, Flot.num 1, Flot.num 2]⟩]).1[0]? =
            some (SensorBase.temperatura ⟨"T-001".toList,
              ([Flot.nan, Flot.num 1, Flot.num 2] : ListaSensor Flot).eraseIdx k⟩) := by
  refine ⟨?_, by decide, ?_, ?_⟩
  · simp [procesarTodos, procesarBucle, SensorBase.procesarLectura,
      temperatura_procesarLectura_fst, eliminarMenor, eliminarMenorBucle, aritNaN]
  · simp [aritNaN]
  · rintro ⟨k, hk, _⟩
    exact sin_minimo_con_nan 1 2 k hk

/-- C14, amended. The call `procesarTodos` applies `procesarLectura` to every sensor once,
in insertion order: the registry afterwards holds at each position what `procesarLectura`
makes of the sensor there, with the same names in the same order; a Pressure sensor is
unchanged, a Temperature sensor with two or more readings whose values the comparison
ranks (as for readings without NaN) has lost the reading at the earliest index holding
the minimum value (with fewer than two readings it is unchanged), and the lines written
are the header followed by the summaries in insertion order. -/
theorem procesarTodos_en_orden {F K : Type} [LinearOrder K] (A : Arit F) (key : F → K)
    (r : ListaGestion F) :
    (procesarTodos A r).1 = r.map (fun s => (SensorBase.procesarLectura A s).1) ∧
      (procesarTodos A r).2 =
        Linea.texto "--- Ejecutando Polimorfismo ---".toList ::
          r.flatMap (fun s => (SensorBase.procesarLectura A s).2) ∧
      (procesarTodos A r).1.length = r.length ∧
      (procesarTodos A r).1.map SensorBase.getNombre = r.map SensorBase.getNombre ∧
      (∀ (i : Nat) (p : SensorPresion), r[i]? = some (SensorBase.presion p) →
        (procesarTodos A r).1[i]? = some (SensorBase.presion p)) ∧
      (∀ (i : Nat) (t : SensorTemperatura F), r[i]? = some (SensorBase.temperatura t) →
        2 ≤ t.historial.length →
        (∀ x ∈ t.historial, ∀ y ∈ t.historial, (A.menor x y = true ↔ key x < key y)) →
        ∃ k m, t.historial[k]? = some m ∧ (∀ x ∈ t.historial, key m ≤ key x) ∧
          (∀ j, j < k → ∀ x, t.historial[j]? = some x → key m < key x) ∧
          (procesarTodos A r).1[i]? =
            some (SensorBase.temperatura ⟨t.nombre, t.historial.eraseIdx k⟩) ∧
          ((∀ x ∈ t.historial, ∀ y ∈ t.historial, key x = key y → x = y) →
            EsPrimerMinimo A t.historial k)) ∧
      (∀ (i : Nat) (t : SensorTemperatura F), r[i]? = some (SensorBase.temperatura t) →
        t.historial.length ≤ 1 →
        (procesarTodos A r).1[i]? = some (SensorBase.temperatura t)) := by
  have h1 : (procesarTodos A r).1 = r.map (fun s => (SensorBase.procesarLectura A s).1) := by
    simp [procesarTodos, procesarBucle_eq]
  refine ⟨h1, by simp [procesarTodos, procesarBucle_eq], by simp [h1], ?_, ?_, ?_, ?_⟩
  · rw [h1, List.map_map]
    apply List.map_congr_left
    intro s _
    exact procesarLectura_getNombre A s
  · intro i p hi
    rw [h1, List.getElem?_map, hi]
    simp [SensorBase.procesarLectura, presion_procesarLectura_fst]
  · intro i t hi h2 hkey
    obtain ⟨k, m, hk, hmin, hfirst, heq⟩ :=
      eliminarMenor_indice_clave A key t.historial hkey h2
    refine ⟨k, m, hk, hmin, hfirst, ?_, ?_⟩
    · rw [h1, List.getElem?_map, hi]
      simp [SensorBase.procesarLectura, temperatura_procesarLectura_fst, heq]
    · intro hinj
      exact esPrimerMinimo_de_clave A key t.historial hkey hinj k m hk hmin hfirst
  · intro i t hi h2
    rw [h1, List.getElem?_map, hi]
    have he : eliminarMenor A t.historial = t.historial := by
      match hh : t.historial, h2 with
      | [], _ => rfl
      | [_], _ => rfl
    simp [SensorBase.procesarLectura, temperatura_procesarLectura_fst, he]

/-- Witness for C14 amended: a Temperature sensor with 30, 10, 20 (no NaN) followed by a
Pressure sensor with 100, 200. -/
theorem procesarTodos_en_orden_witness :
    (procesarTodos aritNaN
        [SensorBase.temperatura ⟨"T-001".toList, [Flot.num 30, Flot.num 10, Flot.num 20]⟩,
          SensorBase.presion ⟨"P-001".toList, [100, 200]⟩]).1 =
        [SensorBase.temperatura ⟨"T-001".toList, [Flot.num 30, Flot.num 20]⟩,
          SensorBase.presion ⟨"P-001".toList, [100, 200]⟩] ∧
      2 ≤ ([Flot.num 30, Flot.num 10, Flot.num 20] : ListaSensor Flot).length ∧
      (∀ x ∈ [Flot.num 30, Flot.num 10, Flot.num 20],
        ∀ y ∈ [Flot.num 30, Flot.num 10, Flot.num 20],
          (aritNaN.menor x y = true ↔ Flot.valor x < Flot.valor y)) ∧
      (∃ k m, ([Flot.num 30, Flot.num 10, Flot.num 20] : ListaSensor Flot)[k]? = some m ∧
        (∀ x ∈ [Flot.num 30, Flot.num 10, Flot.num 20], Flot.valor m ≤ Flot.valor x) ∧
        (procesarTodos aritNaN
            [SensorBase.temperatura
                ⟨"T-001".toList, [Flot.num 30, Flot.num 10, Flot.num 20]⟩,
              SensorBase.presion ⟨"P-001".toList, [100, 200]⟩]).1[0]? =
          some (SensorBase.temperatura ⟨"T-001".toList,
            ([Flot.num 30, Flot.num 10, Flot.num 20] : ListaSensor Flot).eraseIdx k⟩)) ∧
      (procesarTodos aritNaN
          [SensorBase.temperatura ⟨"T-001".toList, [Flot.num 30, Flot.num 10, Flot.num 20]⟩,
            SensorBase.presion ⟨"P-001".toList, [100, 200]⟩]).1[1]? =
        some (SensorBase.presion ⟨"P-001".toList, [100, 200]⟩) := by
  have hk := (aritNaN_clave [Flot.num 30, Flot.num 10, Flot.num 20] (by decide)).1
  refine ⟨?_, by decide, hk, ?_, ?_⟩
  · simp [procesarTodos, procesarBucle, SensorBase.procesarLectura,
      temperatura_procesarLectura_fst, presion_procesarLectura_fst, eliminarMenor,
      eliminarMenorBucle, aritNaN]
    norm_num
  · obtain ⟨k, m, hm, hmin, _, heq, _⟩ :=
      (procesarTodos_en_orden aritNaN Flot.valor
        [SensorBase.temperatura ⟨"T-001".toList, [Flot.num 30, Flot.num 10, Flot.num 20]⟩,
          SensorBase.presion ⟨"P-001".toList, [100, 200]⟩]).2.2.2.2.2.1 0
        ⟨"T-001".toList, [Flot.num 30, Flot.num 10, Flot.num 20]⟩ rfl (by decide) hk
    exact ⟨k, m, hm, hmin, heq⟩
  · exact (procesarTodos_en_orden aritNaN Flot.valor
      [SensorBase.temperatura ⟨"T-001".toList, [Flot.num 30, Flot.num 10, Flot.num 20]⟩,
        SensorBase.presion ⟨"P-001".toList, [100, 200]⟩]).2.2.2.2.1 1
      ⟨"P-001".toList, [100, 200]⟩ rfl

/-- C16. The call `imprimir` writes the header line and then, for the empty registry, the
line saying the list is empty, and otherwise one identity line per sensor in insertion
order, tagged `[SensorTemperatura]` or `[SensorPresion]` and followed by `ID=` and the
name. -/
theorem imprimir_una_linea_por_sensor {F : Type} :
    imprimir ([] : ListaGestion F) =
        [Linea.texto "[Lista de Gestion]".toList,
          Linea.texto "Lista de gestion vacia.".toList] ∧
      (∀ (s : SensorBase F) (r : ListaGestion F),
        imprimir (s :: r) =
          Linea.texto "[Lista de Gestion]".toList :: (s :: r).map lineaIdentidad) ∧
      (∀ t : SensorTemperatura F,
        lineaIdentidad (SensorBase.temperatura t) =
          Linea.texto ("[SensorTemperatura] ID=".toList ++ t.nombre)) ∧
      (∀ p : SensorPresion,
        (lineaIdentidad (SensorBase.presion p) : Linea F) =
          Linea.texto ("[SensorPresion] ID=".toList ++ p.nombre)) ∧
      imprimir ([SensorBase.temperatura ⟨"T-001".toList, []⟩,
          SensorBase.presion ⟨"P-001".toList, []⟩] : ListaGestion F) =
        [Linea.texto "[Lista de Gestion]".toList,
          Linea.texto "[SensorTemperatura] ID=T-001".toList,
          Linea.texto "[SensorPresion] ID=P-001".toList] := by
  refine ⟨rfl, ?_, fun _ => rfl, fun _ => rfl, rfl⟩
  intro s r
  simp only [imprimir, imprimirBucle_eq]

/-- C17. The function `eliminarMenor` never empties a non-empty history; so a Temperature
sensor with at least one reading keeps at least one after any number of
`procesarLectura` calls, the `promedio` inside `procesarLectura` runs on a non-empty
history, its counter `c` ends at 1 or more, and the value reported is `suma / c`. -/
theorem eliminarMenor_deja_lecturas {F : Type} (A : Arit F) (s : SensorTemperatura F)
    (hne : s.historial ≠ []) (n : Nat) :
    (∀ (T : Type) (B : Arit T) (h : ListaSensor T), h ≠ [] → eliminarMenor B h ≠ []) ∧
      ((fun x => (SensorTemperatura.procesarLectura A x).1)^[n] s).historial ≠ [] ∧
      eliminarMenor A s.historial ≠ [] ∧
      1 ≤ (promedioBucle A (eliminarMenor A s.historial) A.cero 0).2 ∧
      (promedioBucle A (eliminarMenor A s.historial) A.cero 0).2 =
        ((eliminarMenor A s.historial).length : Int) ∧
      SensorTemperatura.procesarLectura A s =
        (⟨s.nombre, eliminarMenor A s.historial⟩,
          [Linea.texto
              ("-> Procesando Sensor ".toList ++ s.nombre ++ " (Temperatura)".toList),
            Linea.conFloat "   Promedio después de eliminar menor: ".toList
              (A.entre (promedioBucle A (eliminarMenor A s.historial) A.cero 0).1
                (promedioBucle A (eliminarMenor A s.historial) A.cero 0).2)]) := by
  have hno := eliminarMenor_ne_nil A s.historial hne
  have hlen : 1 ≤ (eliminarMenor A s.historial).length := by
    rcases hq : eliminarMenor A s.historial with _ | ⟨x, r⟩
    · exact absurd hq hno
    · simp
  have hs1 : 1 ≤ s.historial.length := by
    rcases hq : s.historial with _ | ⟨x, r⟩
    · exact absurd hq hne
    · simp
  refine ⟨fun T B h hh => eliminarMenor_ne_nil B h hh, ?_, hno, ?_, ?_, ?_⟩
  · induction n with
    | zero => simpa using hne
    | succ k ih =>
      rw [Function.iterate_succ_apply', temperatura_procesarLectura_fst]
      exact eliminarMenor_ne_nil A _ ih
  · rw [promedioBucle_eq]
    simp only
    omega
  · rw [promedioBucle_eq]
    simp
  · rw [temperatura_procesarLectura_eq A s hs1, promedioBucle_eq]
    rcases hq : eliminarMenor A s.historial with _ | ⟨x, r⟩
    · exact absurd hq hno
    · simp [media]

/-- Witness for C17: the single reading 7 processed three times. -/
theorem eliminarMenor_deja_lecturas_witness :
    (SensorTemperatura.mk "T-001".toList [(7 : Rat)]).historial ≠ [] ∧
      ((fun x => (SensorTemperatura.procesarLectura aritExacta x).1)^[3]
        ⟨"T-001".toList, [7]⟩).historial ≠ [] ∧
      1 ≤ (promedioBucle aritExacta (eliminarMenor aritExacta [(7 : Rat)])
        aritExacta.cero 0).2 :=
  ⟨by decide,
    (eliminarMenor_deja_lecturas aritExacta ⟨"T-001".toList, [7]⟩ (by decide) 3).2.1,
    (eliminarMenor_deja_lecturas aritExacta ⟨"T-001".toList, [7]⟩ (by decide) 3).2.2.2.1⟩

end ClaimsProceso

/-! ## Lemmas on frame handling and lookup after insertion -/

section Tramas

variable {F : Type}

open ListaSensor ListaGestion

theorem buscarDesde_append_some (r : List (SensorBase F)) (s : SensorBase F) (k : Nat)
    (nom : CStr) (i : Nat) (h : buscarDesde r k nom = some i) :
    buscarDesde (r ++ [s]) k nom = some i := by
  induction r generalizing k with
  | nil => simp [buscarDesde] at h
  | cons d r ih =>
    simp only [List.cons_append, buscarDesde] at h ⊢
    by_cases hd : d.getNombre = nom
    · rw [if_pos hd] at h ⊢; exact h
    · rw [if_neg hd] at h ⊢; exact ih (k + 1) h

theorem buscarDesde_append_none (r : List (SensorBase F)) (s : SensorBase F) (k : Nat)
    (nom : CStr) (h : buscarDesde r k nom = none) :
    buscarDesde (r ++ [s]) k nom =
      if s.getNombre = nom then some (k + r.length) else none := by
  induction r generalizing k with
  | nil => simp [buscarDesde]
  | cons d r ih =>
    simp only [List.cons_append, buscarDesde] at h ⊢
    by_cases hd : d.getNombre = nom
    · rw [if_pos hd] at h; simp at h
    · rw [if_neg hd] at h ⊢
      have e := ih (k + 1) h
      have hk : k + 1 + r.length = k + (d :: r).length := by
        simp only [List.length_cons]; omega
      rw [hk] at e
      exact e

theorem ingerirEn_de_some (fl : Flotante F) (lista : ListaGestion F) (i : Nat)
    (s : SensorBase F) (valor : CStr) (h : lista[i]? = some s) :
    ingerirEn fl lista i valor =
      (lista.set i (SensorBase.agregarLecturaDesdeTexto fl s valor).1,
        (SensorBase.agregarLecturaDesdeTexto fl s valor).2) := by
  simp only [ingerirEn, h]

theorem ingerirEn_ultimo (fl : Flotante F) (lista : ListaGestion F) (s : SensorBase F)
    (valor : CStr) :
    (ingerirEn fl (lista ++ [s]) lista.length valor).1 =
      lista ++ [(SensorBase.agregarLecturaDesdeTexto fl s valor).1] := by
  rw [ingerirEn_de_some fl (lista ++ [s]) lista.length s valor (by simp)]
  simp [List.set_append]

theorem manejarTrama_encontrado (fl : Flotante F) (lista : ListaGestion F) (tipo : Char)
    (id valor : CStr) (i : Nat) (s : SensorBase F)
    (hb : buscarPorNombre lista id = some i) (hs : lista[i]? = some s) :
    (manejarTrama fl lista tipo id valor).1 =
      lista.set i (SensorBase.agregarLecturaDesdeTexto fl s valor).1 := by
  simp only [manejarTrama, hb, ingerirEn_de_some fl lista i s valor hs]

end Tramas

/-! ## Frames and lookup: the claims -/

section ClaimsTramas

open ListaSensor ListaGestion

/-- C15 on the code: the two-field line `T;T-001` and the one-field line `T` are decoded
with the tag `T`, and on the empty registry the line `T;T-001` creates the Temperature
sensor `T-001` with the reading zero; only a line without any field gets the tag `X`. -/
theorem parsearLinea_trama_corta_da_T :
    parsearLinea "T;T-001".toList = ('T', "T-001".toList, []) ∧
      parsearLinea "T".toList = ('T', [], []) ∧
      parsearLinea ";".toList = ('X', [], []) ∧
      (recibirTrama flExacta ([] : ListaGestion Rat) "T;T-001".toList).1 =
        [SensorBase.temperatura ⟨"T-001".toList, [0]⟩] := by
  refine ⟨by decide, by decide, by decide, ?_⟩
  rfl

/-- C19. Handling a decoded frame: when `buscarPorNombre` finds the id, the sensor found
is the first one of that name, the value is appended to its history whatever the tag is,
and the registry keeps its length; when the id is not found, tag `T` appends a new
Temperature sensor and tag `P` a new Pressure sensor holding the one reading, and any
other tag leaves the registry as it was. -/
theorem manejarTrama_busca_o_crea {F : Type} (fl : Flotante F) (lista : ListaGestion F)
    (tipo : Char) (id valor : CStr) :
    (∀ i : Nat, buscarPorNombre lista id = some i →
        (∃ s, lista[i]? = some s ∧ s.getNombre = id) ∧
        (∀ j, j < i → ∀ s2, lista[j]? = some s2 → s2.getNombre ≠ id) ∧
        (manejarTrama fl lista tipo id valor).1.length = lista.length) ∧
      (∀ (i : Nat) (t : SensorTemperatura F), buscarPorNombre lista id = some i →
        lista[i]? = some (SensorBase.temperatura t) →
        (manejarTrama fl lista tipo id valor).1 =
          lista.set i (SensorBase.temperatura ⟨t.nombre, t.historial ++ [atof fl valor]⟩)) ∧
      (∀ (i : Nat) (p : SensorPresion), buscarPorNombre lista id = some i →
        lista[i]? = some (SensorBase.presion p) →
        (manejarTrama fl lista tipo id valor).1 =
          lista.set i (SensorBase.presion ⟨p.nombre, p.historial ++ [atoi valor]⟩)) ∧
      (buscarPorNombre lista id = none → tipo = 'T' →
        (manejarTrama fl lista tipo id valor).1 =
          lista ++ [SensorBase.temperatura ⟨id.take 49, [atof fl valor]⟩]) ∧
      (buscarPorNombre lista id = none → tipo = 'P' →
        (manejarTrama fl lista tipo id valor).1 =
          lista ++ [SensorBase.presion ⟨id.take 49, [atoi valor]⟩]) ∧
      (buscarPorNombre lista id = none → tipo ≠ 'T' → tipo ≠ 'P' →
        (manejarTrama fl lista tipo id valor).1 = lista) := by
  refine ⟨?_, ?_, ?_, ?_, ?_, ?_⟩
  · intro i hb
    have hb2 := hb
    unfold buscarPorNombre at hb2
    rw [buscarDesde_eq_some] at hb2
    obtain ⟨j, hj, ⟨s, hs, hn⟩, hprev⟩ := hb2
    have hij : i = j := by omega
    subst hij
    refine ⟨⟨s, hs, hn⟩, hprev, ?_⟩
    rw [manejarTrama_encontrado fl lista tipo id valor i s hb hs]
    simp
  · intro i t hb hs
    rw [manejarTrama_encontrado fl lista tipo id valor i _ hb hs]
    simp [SensorBase.agregarLecturaDesdeTexto, SensorTemperatura.agregarLecturaDesdeTexto,
      insertarFinal_eq_append]
  · intro i p hb hs
    rw [manejarTrama_encontrado fl lista tipo id valor i _ hb hs]
    simp [SensorBase.agregarLecturaDesdeTexto, SensorPresion.agregarLecturaDesdeTexto,
      insertarFinal_eq_append]
  · intro hb ht
    subst ht
    simp only [manejarTrama, hb, crearSensorPorTipo, if_true, insertar_eq_append,
      ingerirEn_ultimo]
    simp [SensorBase.agregarLecturaDesdeTexto, SensorTemperatura.agregarLecturaDesdeTexto,
      SensorTemperatura.nuevo, copiarNombre, insertarFinal]
  · intro hb ht
    subst ht
    have hne : ¬ ('P' = 'T') := by decide
    simp only [manejarTrama, hb, crearSensorPorTipo, if_neg hne, if_true, insertar_eq_append,
      ingerirEn_ultimo]
    simp [SensorBase.agregarLecturaDesdeTexto, SensorPresion.agregarLecturaDesdeTexto,
      SensorPresion.nuevo, copiarNombre, insertarFinal]
  · intro hb h1 h2
    simp [manejarTrama, hb, crearSensorPorTipo, h1, h2]

/-- Witness for C19: a frame tagged `P` and a frame with the invalid tag `X`, both for
the id of the existing Temperature sensor `A`, append their reading to that sensor; a
frame tagged `X` for an unknown id changes nothing. -/
theorem manejarTrama_busca_o_crea_witness :
    buscarPorNombre ([SensorBase.temperatura ⟨"A".toList, [1]⟩] : ListaGestion Rat)
        "A".toList = some 0 ∧
      (manejarTrama flExacta [SensorBase.temperatura ⟨"A".toList, [1]⟩] 'P' "A".toList
          "3.5".toList).1 =
        ([SensorBase.temperatura ⟨"A".toList, [1]⟩] : ListaGestion Rat).set 0
          (SensorBase.temperatura ⟨"A".toList, [1] ++ [atof flExacta "3.5".toList]⟩) ∧
      (manejarTrama flExacta [SensorBase.temperatura ⟨"A".toList, [1]⟩] 'X' "A".toList
          "3.5".toList).1 =
        ([SensorBase.temperatura ⟨"A".toList, [1]⟩] : ListaGestion Rat).set 0
          (SensorBase.temperatura ⟨"A".toList, [1] ++ [atof flExacta "3.5".toList]⟩) ∧
      (manejarTrama flExacta [SensorBase.temperatura ⟨"A".toList, [1]⟩] 'X' "B".toList
          "3.5".toList).1 = [SensorBase.temperatura ⟨"A".toList, [1]⟩] :=
  ⟨by decide,
    (manejarTrama_busca_o_crea flExacta [SensorBase.temperatura ⟨"A".toList, [1]⟩] 'P'
      "A".toList "3.5".toList).2.1 0 ⟨"A".toList, [1]⟩ (by decide) rfl,
    (manejarTrama_busca_o_crea flExacta [SensorBase.temperatura ⟨"A".toList, [1]⟩] 'X'
      "A".toList "3.5".toList).2.1 0 ⟨"A".toList, [1]⟩ (by decide) rfl,
    (manejarTrama_busca_o_crea flExacta [SensorBase.temperatura ⟨"A".toList, [1]⟩] 'X'
      "B".toList "3.5".toList).2.2.2.2.2 (by decide) (by decide) (by decide)⟩

/-- C20. Lookup after insert: for a name `n` of at most 49 characters and a new sensor of
either kind constructed with it, the sensor stores `n`; after `insertar`, the lookup of
`n` returns the sensor it returned before when there was one, and the new sensor (the
last entry) otherwise, in both cases a sensor named `n`; the lookup of any other name
returns what it returned before. -/
theorem buscarPorNombre_tras_insertar {F : Type} (r : ListaGestion F) (n : CStr)
    (s : SensorBase F) (hn : n.length ≤ 49)
    (hs : s = SensorBase.temperatura (SensorTemperatura.nuevo n) ∨
      s = SensorBase.presion (SensorPresion.nuevo n)) :
    s.getNombre = n ∧
      (∀ i : Nat, buscarPorNombre r n = some i →
        buscarPorNombre (insertar r s) n = some i ∧ (insertar r s)[i]? = r[i]?) ∧
      (buscarPorNombre r n = none →
        buscarPorNombre (insertar r s) n = some r.length ∧
        (insertar r s)[r.length]? = some s) ∧
      (∃ (i : Nat) (s2 : SensorBase F), buscarPorNombre (insertar r s) n = some i ∧
        (insertar r s)[i]? = some s2 ∧ s2.getNombre = n) ∧
      (∀ m : CStr, m ≠ n → buscarPorNombre (insertar r s) m = buscarPorNombre r m) := by
  have hnom : s.getNombre = n := by
    rcases hs with rfl | rfl
    · simp [SensorBase.getNombre, SensorTemperatura.nuevo, copiarNombre,
        List.take_of_length_le hn]
    · simp [SensorBase.getNombre, SensorPresion.nuevo, copiarNombre,
        List.take_of_length_le hn]
  have hsome : ∀ i : Nat, buscarPorNombre r n = some i →
      buscarPorNombre (insertar r s) n = some i ∧ (insertar r s)[i]? = r[i]? := by
    intro i hb
    rw [insertar_eq_append]
    refine ⟨buscarDesde_append_some r s 0 n i hb, ?_⟩
    have hb2 := hb
    unfold buscarPorNombre at hb2
    rw [buscarDesde_eq_some] at hb2
    obtain ⟨j, hj, ⟨s2, hs2, _⟩, _⟩ := hb2
    have hij : i = j := by omega
    subst hij
    have hlt : i < r.length := by
      by_contra hge
      rw [List.getElem?_eq_none (by omega)] at hs2
      simp at hs2
    exact List.getElem?_append_left hlt
  have hnone : buscarPorNombre r n = none →
      buscarPorNombre (insertar r s) n = some r.length ∧
      (insertar r s)[r.length]? = some s := by
    intro hb
    rw [insertar_eq_append]
    refine ⟨?_, by simp⟩
    unfold buscarPorNombre at hb ⊢
    rw [buscarDesde_append_none r s 0 n hb, if_pos hnom, zero_add]
  refine ⟨hnom, hsome, hnone, ?_, ?_⟩
  · cases hb : buscarPorNombre r n with
    | none =>
      exact ⟨r.length, s, (hnone hb).1, (hnone hb).2, hnom⟩
    | some i =>
      have hb2 := hb
      unfold buscarPorNombre at hb2
      rw [buscarDesde_eq_some] at hb2
      obtain ⟨j, hj, ⟨s2, hs2, hn2⟩, _⟩ := hb2
      have hij : i = j := by omega
      subst hij
      refine ⟨i, s2, (hsome i hb).1, ?_, hn2⟩
      rw [(hsome i hb).2, hs2]
  · intro m hm
    rw [insertar_eq_append]
    have hsm : ¬ (s.getNombre = m) := by
      rw [hnom]
      exact fun h => hm h.symm
    cases hb : buscarPorNombre r m with
    | none =>
      unfold buscarPorNombre at hb ⊢
      rw [buscarDesde_append_none r s 0 m hb, if_neg hsm]
    | some i =>
      exact buscarDesde_append_some r s 0 m i hb

/-- Witness for C20: inserting a new Pressure sensor named `B` after a sensor named `A`. -/
theorem buscarPorNombre_tras_insertar_witness :
    "B".toList.length ≤ 49 ∧
      buscarPorNombre ([SensorBase.temperatura ⟨"A".toList, []⟩] : ListaGestion Rat)
        "B".toList = none ∧
      buscarPorNombre
          (insertar ([SensorBase.temperatura ⟨"A".toList, []⟩] : ListaGestion Rat)
            (SensorBase.presion (SensorPresion.nuevo "B".toList))) "B".toList =
        some ([SensorBase.temperatura ⟨"A".toList, []⟩] : ListaGestion Rat).length ∧
      buscarPorNombre
          (insertar ([SensorBase.temperatura ⟨"A".toList, []⟩] : ListaGestion Rat)
            (SensorBase.presion (SensorPresion.nuevo "B".toList))) "A".toList =
        buscarPorNombre ([SensorBase.temperatura ⟨"A".toList, []⟩] : ListaGestion Rat)
          "A".toList :=
  ⟨by decide, by decide,
    ((buscarPorNombre_tras_insertar [SensorBase.temperatura ⟨"A".toList, []⟩] "B".toList
      (SensorBase.presion (SensorPresion.nuevo "B".toList)) (by decide)
      (Or.inr rfl)).2.2.1 (by decide)).1,
    (buscarPorNombre_tras_insertar [SensorBase.temperatura ⟨"A".toList, []⟩] "B".toList
      (SensorBase.presion (SensorPresion.nuevo "B".toList)) (by decide)
      (Or.inr rfl)).2.2.2.2 "A".toList (by decide)⟩

end ClaimsTramas

/-! ## Lemmas on the mean without the minimum -/

section MediaSinMinimo

open ListaSensor

theorem tdiv_cotas_nonneg (a b : Int) (hb : 0 < b) (ha : 0 ≤ a) :
    b * Int.tdiv a b ≤ a ∧ a < b * Int.tdiv a b + b ∧ 0 ≤ Int.tdiv a b := by
  have h1 := Int.tdiv_add_tmod a b
  have h2 := Int.tmod_nonneg b ha
  have h3 := Int.tmod_lt_of_pos a hb
  have h4 := Int.tdiv_nonneg ha (le_of_lt hb)
  refine ⟨by omega, by omega, h4⟩

theorem tdiv_cotas_nonpos (a b : Int) (hb : 0 < b) (ha : a ≤ 0) :
    a ≤ b * Int.tdiv a b ∧ b * Int.tdiv a b - b < a ∧ Int.tdiv a b ≤ 0 := by
  obtain ⟨h1, h2, h3⟩ := tdiv_cotas_nonneg (-a) b hb (by omega)
  rw [Int.neg_tdiv] at h1 h2 h3
  have e : b * -Int.tdiv a b = -(b * Int.tdiv a b) := by ring
  rw [e] at h1 h2
  refine ⟨by omega, by omega, by omega⟩

/-- Truncating division respects the order of the exact quotients. -/
theorem tdiv_le_tdiv_de_fracciones (a b c d : Int) (hb : 0 < b) (hd : 0 < d)
    (h : a * d ≤ c * b) : Int.tdiv a b ≤ Int.tdiv c d := by
  by_contra hcon
  have hq : Int.tdiv c d + 1 ≤ Int.tdiv a b := by omega
  rcases le_or_lt 0 a with ha | ha
  · have hc : 0 ≤ c := by
      by_contra hc
      have hc2 : c < 0 := by omega
      have : c * b < 0 := mul_neg_of_neg_of_pos hc2 hb
      have : 0 ≤ a * d := mul_nonneg ha (le_of_lt hd)
      omega
    obtain ⟨a1, _, _⟩ := tdiv_cotas_nonneg a b hb ha
    obtain ⟨_, c2, _⟩ := tdiv_cotas_nonneg c d hd hc
    have e1 : b * Int.tdiv a b * d ≤ a * d := mul_le_mul_of_nonneg_right a1 (le_of_lt hd)
    have e2 : d * (Int.tdiv c d + 1) ≤ d * Int.tdiv a b :=
      mul_le_mul_of_nonneg_left hq (le_of_lt hd)
    have e3 : c < d * Int.tdiv a b := by
      have : d * (Int.tdiv c d + 1) = d * Int.tdiv c d + d := by ring
      omega
    have e4 : c * b < d * Int.tdiv a b * b := mul_lt_mul_of_pos_right e3 hb
    have e5 : d * Int.tdiv a b * b = b * Int.tdiv a b * d := by ring
    omega
  · obtain ⟨_, a2, a3⟩ := tdiv_cotas_nonpos a b hb (le_of_lt ha)
    rcases le_or_lt 0 c with hc | hc
    · obtain ⟨_, _, c3⟩ := tdiv_cotas_nonneg c d hd hc
      omega
    · obtain ⟨c1, _, _⟩ := tdiv_cotas_nonpos c d hd (le_of_lt hc)
      have e2 : d * Int.tdiv c d ≤ d * (Int.tdiv a b - 1) :=
        mul_le_mul_of_nonneg_left (by omega) (le_of_lt hd)
      have e3 : c ≤ d * (Int.tdiv a b - 1) := by omega
      have e4 : c * b ≤ d * (Int.tdiv a b - 1) * b :=
        mul_le_mul_of_nonneg_right e3 (le_of_lt hb)
      have e5 : b * (Int.tdiv a b - 1) < a := by
        have : b * (Int.tdiv a b - 1) = b * Int.tdiv a b - b := by ring
        omega
      have e6 : b * (Int.tdiv a b - 1) * d < a * d := mul_lt_mul_of_pos_right e5 hd
      have e7 : d * (Int.tdiv a b - 1) * b = b * (Int.tdiv a b - 1) * d := by ring
      omega

/-- A list whose elements are all at least `m` sums to at least `length * m`, with
equality exactly when every element is `m`. -/
theorem suma_ge_cuenta_por_minimo {K : Type} [LinearOrderedCommRing K] (l : List K) (m : K)
    (hm : ∀ y ∈ l, m ≤ y) :
    (l.length : K) * m ≤ l.sum ∧ ((l.length : K) * m = l.sum ↔ ∀ y ∈ l, y = m) := by
  induction l with
  | nil => simp
  | cons x r ih =>
    have hx : m ≤ x := hm x (by simp)
    obtain ⟨i1, i2⟩ := ih (fun y hy => hm y (List.mem_cons_of_mem _ hy))
    have e : ((x :: r).length : K) * m = (r.length : K) * m + m := by
      simp only [List.length_cons]
      push_cast
      ring
    rw [e, List.sum_cons]
    refine ⟨by linarith, ?_⟩
    constructor
    · intro heq
      have hx2 : x = m := by linarith
      have hr : (r.length : K) * m = r.sum := by linarith
      intro y hy
      rcases List.mem_cons.1 hy with rfl | hy
      · exact hx2
      · exact i2.1 hr y hy
    · intro hall
      have hx2 : x = m := hall x (by simp)
      have hr := i2.2 (fun y hy => hall y (List.mem_cons_of_mem _ hy))
      linarith

/-- What `eliminarMenor` takes away from the sum and the count, for an ordered arithmetic. -/
theorem eliminarMenor_suma {K : Type} [LinearOrderedCommRing K] (A : Arit K) (hA : A.Ordenada)
    (h : ListaSensor K) (h2 : 2 ≤ h.length) :
    ∃ m, m ∈ h ∧ (∀ y ∈ h, m ≤ y) ∧ (eliminarMenor A h).sum + m = h.sum ∧
      (eliminarMenor A h).length + 1 = h.length := by
  rw [eliminarMenor_eq_quitarPrimerMinimo A hA h h2]
  match h, h2 with
  | x :: resto, hl =>
    have hmem := minimoDe_mem x resto
    refine ⟨minimoDe x resto, hmem, ?_, ?_, ?_⟩
    · intro y hy
      rcases List.mem_cons.1 hy with rfl | hy
      · exact minimoDe_le_inicio _ resto
      · exact minimoDe_le_mem x resto y hy
    · simp only [quitarPrimerMinimo]
      rw [add_comm]
      exact List.sum_erase hmem
    · simp only [quitarPrimerMinimo]
      rw [List.length_erase_of_mem hmem]
      simp

theorem media_aritExacta (h : List Rat) (hne : h ≠ []) :
    media aritExacta h = h.sum / (h.length : Rat) := by
  cases h with
  | nil => exact absurd rfl hne
  | cons x r =>
    simp only [media]
    show List.foldl (fun a b => a + b) 0 (x :: r) / (((x :: r).length : Int) : Rat) = _
    rw [← List.sum_eq_foldl]
    simp

end MediaSinMinimo

/-! ## The mean without the minimum: the claim -/

section ClaimsMedia

open ListaSensor

/-- C18. Dropping the minimum never lowers the mean. In exact arithmetic, for a history
of two or more elements `promedio` after `eliminarMenor` is at least `promedio` before
it, and the two are equal exactly when all elements are equal. For an `int` history of
two or more elements whose sum fits 32 bits before and after the removal, `promedio`
(with its truncating division) after `eliminarMenor` is at least `promedio` before it. -/
theorem quitar_minimo_no_baja_promedio :
    (∀ h : ListaSensor Rat, 2 ≤ h.length →
        (promedio aritExacta h).1 ≤ (promedio aritExacta (eliminarMenor aritExacta h)).1 ∧
        ((promedio aritExacta (eliminarMenor aritExacta h)).1 = (promedio aritExacta h).1 ↔
          ∀ x ∈ h, ∀ y ∈ h, x = y)) ∧
      (∀ h : ListaSensor Int, 2 ≤ h.length →
        -(2 ^ 31) ≤ h.sum → h.sum < 2 ^ 31 →
        -(2 ^ 31) ≤ (eliminarMenor aritInt h).sum → (eliminarMenor aritInt h).sum < 2 ^ 31 →
        (promedio aritInt h).1 ≤ (promedio aritInt (eliminarMenor aritInt h)).1) := by
  constructor
  · intro h h2
    obtain ⟨m, hmem, hmin, hsum, hlen⟩ := eliminarMenor_suma aritExacta aritExacta_ordenada h h2
    obtain ⟨g1, g2⟩ := suma_ge_cuenta_por_minimo h m hmin
    have hne : h ≠ [] := by
      intro h0; rw [h0] at h2; simp at h2
    have hne2 : eliminarMenor aritExacta h ≠ [] := eliminarMenor_ne_nil aritExacta h hne
    have hn : (2 : Rat) ≤ (h.length : Rat) := by exact_mod_cast h2
    have hl : ((eliminarMenor aritExacta h).length : Rat) = (h.length : Rat) - 1 := by
      have : ((eliminarMenor aritExacta h).length : Rat) + 1 = (h.length : Rat) := by
        exact_mod_cast hlen
      linarith
    have hs : (eliminarMenor aritExacta h).sum = h.sum - m := by linarith
    have hpos : (0 : Rat) < (h.length : Rat) := by linarith
    have hpos2 : (0 : Rat) < (h.length : Rat) - 1 := by linarith
    simp only [promedio_eq_media]
    rw [media_aritExacta h hne, media_aritExacta _ hne2, hl, hs]
    constructor
    · rw [div_le_div_iff₀ hpos hpos2]
      nlinarith
    · rw [div_eq_div_iff (ne_of_gt hpos2) (ne_of_gt hpos)]
      constructor
      · intro heq
        have hnm : (h.length : Rat) * m = h.sum := by nlinarith
        have hall := g2.1 hnm
        intro x hx y hy
        rw [hall x hx, hall y hy]
      · intro hall
        have hnm : (h.length : Rat) * m = h.sum := g2.2 (fun y hy => hall y hy m hmem)
        nlinarith
  · intro h h2 hlo hhi hlo2 hhi2
    obtain ⟨m, hmem, hmin, hsum, hlen⟩ := eliminarMenor_suma aritInt aritInt_ordenada h h2
    obtain ⟨g1, _⟩ := suma_ge_cuenta_por_minimo h m hmin
    have hne : h ≠ [] := by
      intro h0; rw [h0] at h2; simp at h2
    have hne2 : eliminarMenor aritInt h ≠ [] := eliminarMenor_ne_nil aritInt h hne
    simp only [promedio_eq_media]
    rw [media_aritInt h hne hlo hhi, media_aritInt _ hne2 hlo2 hhi2]
    have hl : ((eliminarMenor aritInt h).length : Int) = (h.length : Int) - 1 := by omega
    have hn : (2 : Int) ≤ (h.length : Int) := by exact_mod_cast h2
    have hs : (eliminarMenor aritInt h).sum = h.sum - m := by omega
    apply tdiv_le_tdiv_de_fracciones _ _ _ _ (by omega) (by omega)
    rw [hl, hs]
    nlinarith

/-- Witness for C18: in exact arithmetic 30, 10, 20 has mean 20 and, without the 10,
mean 25; the `int` history 1, 2, 4 has mean 2 and, without the 1, mean 3. -/
theorem quitar_minimo_no_baja_promedio_witness :
    2 ≤ ([30, 10, 20] : ListaSensor Rat).length ∧
      (promedio aritExacta [30, 10, 20]).1 ≤
        (promedio aritExacta (eliminarMenor aritExacta [30, 10, 20])).1 ∧
      2 ≤ ([1, 2, 4] : ListaSensor Int).length ∧
      (promedio aritInt [1, 2, 4]).1 ≤
        (promedio aritInt (eliminarMenor aritInt [1, 2, 4])).1 ∧
      (promedio aritInt [1, 2, 4]).1 = 2 ∧
      (promedio aritInt (eliminarMenor aritInt [1, 2, 4])).1 = 3 :=
  ⟨by decide,
    (quitar_minimo_no_baja_promedio.1 [30, 10, 20] (by decide)).1,
    by decide,
    quitar_minimo_no_baja_promedio.2 [1, 2, 4] (by decide) (by decide) (by decide)
      (by decide) (by decide),
    by decide, by decide⟩

end ClaimsMedia


/-! ## Processing an empty history: the claim -/

section ClaimsSinLecturas

open ListaSensor

/-- C21. For a sensor of either kind whose history is empty, `procesarLectura` (called
directly or through the base class) writes its heading and the line saying there are no
readings, writes no line carrying a number although `promedio` of the empty history would
return zero, and leaves the sensor with its empty history. -/
theorem procesarLectura_sin_lecturas {F : Type} (A : Arit F) (nombre : CStr) :
    SensorTemperatura.procesarLectura A ⟨nombre, []⟩ =
        (⟨nombre, []⟩,
          [Linea.texto ("-> Procesando Sensor ".toList ++ nombre ++ " (Temperatura)".toList),
            Linea.texto "   No hay lecturas.".toList]) ∧
      (SensorPresion.procesarLectura ⟨nombre, []⟩ : SensorPresion × List (Linea F)) =
        (⟨nombre, []⟩,
          [Linea.texto ("-> Procesando Sensor ".toList ++ nombre ++ " (Presion)".toList),
            Linea.texto "   No hay lecturas.".toList]) ∧
      SensorBase.procesarLectura A (SensorBase.temperatura ⟨nombre, []⟩) =
        (SensorBase.temperatura ⟨nombre, []⟩,
          [Linea.texto ("-> Procesando Sensor ".toList ++ nombre ++ " (Temperatura)".toList),
            Linea.texto "   No hay lecturas.".toList]) ∧
      SensorBase.procesarLectura A (SensorBase.presion ⟨nombre, []⟩) =
        (SensorBase.presion ⟨nombre, []⟩,
          [Linea.texto ("-> Procesando Sensor ".toList ++ nombre ++ " (Presion)".toList),
            Linea.texto "   No hay lecturas.".toList]) ∧
      (∀ l ∈ (SensorTemperatura.procesarLectura A ⟨nombre, []⟩).2,
        ∀ (txt : CStr), (∀ v : F, l ≠ Linea.conFloat txt v) ∧
          (∀ v : Int, l ≠ Linea.conInt txt v)) ∧
      (∀ l ∈ (SensorPresion.procesarLectura ⟨nombre, []⟩ : SensorPresion × List (Linea F)).2,
        ∀ (txt : CStr), (∀ v : F, l ≠ Linea.conFloat txt v) ∧
          (∀ v : Int, l ≠ Linea.conInt txt v)) ∧
      promedio A ([] : ListaSensor F) = (A.cero, []) ∧
      promedio aritInt [] = (0, []) := by
  refine ⟨rfl, rfl, rfl, rfl, ?_, ?_, rfl, rfl⟩
  · intro l hl txt
    have hl2 : l = Linea.texto
          ("-> Procesando Sensor ".toList ++ nombre ++ " (Temperatura)".toList) ∨
        l = Linea.texto "   No hay lecturas.".toList := by
      simpa [SensorTemperatura.procesarLectura, estaVacia] using hl
    rcases hl2 with rfl | rfl <;> exact ⟨fun v h => (by cases h), fun v h => (by cases h)⟩
  · intro l hl txt
    have hl2 : l = Linea.texto
          ("-> Procesando Sensor ".toList ++ nombre ++ " (Presion)".toList) ∨
        l = Linea.texto "   No hay lecturas.".toList := by
      simpa [SensorPresion.procesarLectura, estaVacia] using hl
    rcases hl2 with rfl | rfl <;> exact ⟨fun v h => (by cases h), fun v h => (by cases h)⟩

end ClaimsSinLecturas
end IoT
